import Mathlib

/-!
Shallow embedding of the nextpnr-xilinx `router1` core (src/common/router1.cc)
and a verification of the specification's claims about it.

Modelling conventions:
* `WireId` and `PipId` are natural numbers; `0` plays the role of the C++
  sentinel values `WireId()` / `PipId()` (a default-constructed, "null" id).
* Nets are identified by natural numbers (`NetId`).  `NetInfo` pointer fields
  of the C++ are therefore net ids, and `nullptr` is `Option.none`.
* `delay_t` is a signed machine integer in the C++; none of the verified
  claims depend on wrap-around, so it is modelled as `Int`.
* The fabric oracle (`Context` / `Arch`) is a record of functions (`Arch`
  below).  Availability and conflict queries receive the current binding
  state, mirroring the fact that the C++ queries read the mutable context.
* `std::unordered_map` / `std::unordered_set` are modelled as association
  lists (with unique keys) and as functions into `List`.  Iteration order of
  the C++ hash containers is unspecified; the model fixes insertion order.
* `std::priority_queue<T, C, Cmp>` pops a maximal element with respect to
  `Cmp` read as "less-than".  Both queues of router1 use a `Greater`
  comparator, so the popped element is one MINIMIZING the comparator key;
  ties are resolved here by taking the earliest such element.
* `log_error` aborts the run (C++ throws); the model stops early and keeps
  the state reached at the abort point.  `log_assert` / `NPNR_ASSERT` are
  modelled as no-ops (they never mutate state); theorems that depend on an
  assert's guarantee take it as an explicit hypothesis.
* Unbounded C++ loops are given explicit fuel; every claim proved below is
  insensitive to the fuel cutoff or takes sufficiency hypotheses.
-/

namespace Router1Model

abbrev WireId := Nat
abbrev PipId := Nat
abbrev NetId := Nat

/-- The null wire id `WireId()` of nextpnr. -/
def nullWire : WireId := 0

/-- The null pip id `PipId()` of nextpnr. -/
def nullPip : PipId := 0

/-- `arc_key` of router1.cc: a (net, user index) pair. -/
structure ArcKey where
  net : NetId
  userIdx : Nat
deriving DecidableEq, Repr

/-- `arc_entry` of router1.cc: a work-queue element with its priority. -/
structure ArcEntry where
  arc : ArcKey
  pri : Int
deriving DecidableEq, Repr

/-- One entry of a net's `wires` map: the pip driving the wire (0 = none,
i.e. the wire was bound with `bindWire`) and the binding strength. -/
structure BindInfo where
  net : NetId
  pip : PipId
  strength : Nat
deriving DecidableEq, Repr

/-- `STRENGTH_WEAK` of nextpnr's `PlaceStrength`. -/
def strengthWeak : Nat := 1

/-- `STRENGTH_LOCKED` of nextpnr's `PlaceStrength`. -/
def strengthLocked : Nat := 5

/-- The global binding state: for each bound wire, the net it is bound to,
the pip driving it (0 = bound by `bindWire`), and the strength.  This is the
union of all `NetInfo::wires` maps of the C++ context. -/
abbrev Bindings := List (WireId × BindInfo)

/-- Oracle mutations recorded for observation (newest first). -/
inductive Event where
  | bindW (w : WireId) (n : NetId)
  | bindP (p : PipId) (n : NetId)
  | unbind (w : WireId)
deriving DecidableEq, Repr

/-- The static part of the fabric oracle (`Context` minus its mutable
binding state).  Conflict and availability queries take the current
bindings, since the C++ calls read the mutable context. -/
structure Arch where
  pipSrc : PipId → WireId
  pipDst : PipId → WireId
  pipsDownhill : WireId → List PipId
  wireDelay : WireId → Int
  pipDelay : PipId → Int
  estimateDelay : WireId → WireId → Int
  delayEpsilon : Int
  sourceWire : NetId → WireId
  sinkWire : NetId → Nat → WireId
  usersCount : NetId → Nat
  budget : NetId → Nat → Int
  hasDriver : NetId → Bool
  nets : List NetId
  rngSeq : Nat → Int
  checkWireAvail : Bindings → WireId → Bool
  checkPipAvail : Bindings → PipId → Bool
  conflictingWireWire : Bindings → WireId → WireId
  conflictingWireNet : Bindings → WireId → Option NetId
  conflictingPipWire : Bindings → PipId → WireId
  conflictingPipNet : Bindings → PipId → Option NetId

/-- Mutable oracle state: the arch, the wire bindings, the PRNG position and
the trace of binding mutations (newest first). -/
structure Ctx where
  arch : Arch
  bindings : Bindings
  rngCounter : Nat
  events : List Event

/-- Association-list lookup for the binding maps. -/
def lookupKey (b : Bindings) (w : WireId) : Option BindInfo :=
  (b.find? (fun e => e.1 == w)).map (·.2)

/-- `count` of an `unordered_map` key. -/
def containsKey (b : Bindings) (w : WireId) : Bool :=
  (lookupKey b w).isSome

/-- Remove a key from the binding map. -/
def removeKey (b : Bindings) (w : WireId) : Bindings :=
  b.filter (fun e => e.1 != w)

/-- `NetInfo::wires` of a net: the bound wires belonging to it. -/
def netWires (b : Bindings) (n : NetId) : Bindings :=
  b.filter (fun e => e.2.net == n)

/-- The pip stored for `w` in a net's wires map (`wires.at(w).pip`);
0 when the wire is absent. -/
def lookupPipOf (nw : Bindings) (w : WireId) : PipId :=
  match lookupKey nw w with
  | some bi => bi.pip
  | none => nullPip

/-- Pointwise update of a function-backed map. -/
def upd {α β : Type} [DecidableEq α] (f : α → β) (a : α) (v : β) : α → β :=
  fun a' => if a' = a then v else f a'

/-- `unordered_set::erase`: remove an element. -/
def eraseAllL {α : Type} [DecidableEq α] (x : α) (l : List α) : List α :=
  l.filter (fun y => y ≠ x)

/-- `QueuedWire` of router1.cc. -/
structure QueuedWire where
  wire : WireId
  pip : PipId
  delay : Int
  penalty : Int
  bonus : Int
  togo : Int
  randtag : Int
deriving DecidableEq, Repr

/-- The full router state (`struct Router1` plus the oracle state). -/
structure RState where
  ctx : Ctx
  arcQueue : List ArcEntry
  queuedArcs : List ArcKey
  wireToArcs : WireId → List ArcKey
  arcToWires : ArcKey → List WireId
  wireScores : WireId → Nat
  netScores : NetId → Nat
  arcsWithRipup : Nat
  arcsWithoutRipup : Nat
  ripupFlag : Bool
  ripupCalls : Nat

/-- Fresh router over a design: `Router1 router(ctx, cfg)` on a context whose
binding state is `b0`. -/
def initState (arch : Arch) (b0 : Bindings) : RState where
  ctx := ⟨arch, b0, 0, []⟩
  arcQueue := []
  queuedArcs := []
  wireToArcs := fun _ => []
  arcToWires := fun _ => []
  wireScores := fun _ => 0
  netScores := fun _ => 0
  arcsWithRipup := 0
  arcsWithoutRipup := 0
  ripupFlag := false
  ripupCalls := 0

/-- `ctx->bindWire(w, net, strength)`: bind `w` with no driving pip. -/
def bindWireOp (s : RState) (w : WireId) (n : NetId) (str : Nat) : RState :=
  { s with ctx := { s.ctx with
      bindings := (w, ⟨n, nullPip, str⟩) :: removeKey s.ctx.bindings w,
      events := Event.bindW w n :: s.ctx.events } }

/-- `ctx->bindPip(p, net, strength)`: bind the pip and its destination wire. -/
def bindPipOp (s : RState) (p : PipId) (n : NetId) (str : Nat) : RState :=
  let w := s.ctx.arch.pipDst p
  { s with ctx := { s.ctx with
      bindings := (w, ⟨n, p, str⟩) :: removeKey s.ctx.bindings w,
      events := Event.bindP p n :: s.ctx.events } }

/-- `ctx->unbindWire(w)`. -/
def unbindOp (s : RState) (w : WireId) : RState :=
  { s with ctx := { s.ctx with
      bindings := removeKey s.ctx.bindings w,
      events := Event.unbind w :: s.ctx.events } }

/-- `arc_queue_insert(arc, src_wire, dst_wire)` (router1.cc:110).  The
priority is `estimateDelay(src, dst) - budget`. -/
def arc_queue_insert2 (s : RState) (arc : ArcKey) (srcW dstW : WireId) : RState :=
  if arc ∈ s.queuedArcs then s
  else
    let pri := s.ctx.arch.estimateDelay srcW dstW - s.ctx.arch.budget arc.net arc.userIdx
    { s with arcQueue := ⟨arc, pri⟩ :: s.arcQueue, queuedArcs := arc :: s.queuedArcs }

/-- `arc_queue_insert(arc)` (router1.cc:125): resolve the arc's source and
sink wires, then insert. -/
def arc_queue_insert (s : RState) (arc : ArcKey) : RState :=
  if arc ∈ s.queuedArcs then s
  else
    arc_queue_insert2 s arc (s.ctx.arch.sourceWire arc.net)
      (s.ctx.arch.sinkWire arc.net arc.userIdx)

/-- Top of the arc work queue.  `std::priority_queue` with the
`arc_entry::Greater` comparator (`lhs.pri > rhs.pri`) pops an element whose
priority is MINIMAL; on (impossible for distinct priorities) ties the model
takes the earliest element.  An empty queue is undefined behaviour in C++;
the model returns a junk entry. -/
def queueTop (q : List ArcEntry) : ArcEntry :=
  match q with
  | [] => ⟨⟨0, 0⟩, 0⟩
  | e :: rest => rest.foldl (fun b e' => if e'.pri < b.pri then e' else b) e

/-- `arc_queue_pop()` (router1.cc:139). -/
def arc_queue_pop (s : RState) : ArcKey × RState :=
  let e := queueTop s.arcQueue
  (e.arc, { s with arcQueue := s.arcQueue.erase e,
                   queuedArcs := eraseAllL e.arc s.queuedArcs })

/-- Attach an arc to a wire in both Arc Index maps. -/
def attachArc (s : RState) (arc : ArcKey) (w : WireId) : RState :=
  { s with
    wireToArcs := upd s.wireToArcs w ((s.wireToArcs w).insert arc),
    arcToWires := upd s.arcToWires arc ((s.arcToWires arc).insert w) }

/-- Detaching one arc from wire `w` during eviction
(`arc_to_wires[it].erase(w); arc_queue_insert(it)`, router1.cc:159-160). -/
def detachStep (w : WireId) (s : RState) (a : ArcKey) : RState :=
  arc_queue_insert
    { s with arcToWires := upd s.arcToWires a (eraseAllL w (s.arcToWires a)) } a

/-- The wire-eviction core shared by `ripup_net` / `ripup_wire` / `ripup_pip`
(router1.cc:158-162): detach every arc using `w` from the Arc Index,
re-enqueueing each detached arc, then clear `wire_to_arcs[w]`. -/
def detachWireArcs (s : RState) (w : WireId) : RState :=
  let arcs := s.wireToArcs w
  let s1 := arcs.foldl (detachStep w) s
  { s1 with wireToArcs := upd s1.wireToArcs w [] }

/-- Detach all arcs from `w`, unbind it and bump its score
(router1.cc:158-168, and the identical blocks at 186-196, 214-224). -/
def ripupWireCore (s : RState) (w : WireId) : RState :=
  let s1 := detachWireArcs s w
  let s2 := unbindOp s1 w
  { s2 with wireScores := upd s2.wireScores w (s2.wireScores w + 1) }

/-- Set `ripup_flag` (done at the end of each rip-up routine). -/
def ripupFlagSet (s : RState) : RState := { s with ripupFlag := true }

/-- `ripup_net(net)` (router1.cc:147).  `ripupCalls` counts entries into the
three rip-up routines (for observing that they were not invoked).  The net
score is bumped on entry, then every wire bound to the net is evicted. -/
def ripup_net (s : RState) (n : NetId) : RState :=
  ripupFlagSet
    ((netWires s.ctx.bindings n).foldl (fun s e => ripupWireCore s e.1)
      { s with ripupCalls := s.ripupCalls + 1,
               netScores := upd s.netScores n (s.netScores n + 1) })

/-- Shared dispatch of `ripup_wire` / `ripup_pip` (router1.cc:179-197): a
specific conflicting wire is evicted directly, otherwise a conflicting net
(when present) is ripped up whole. -/
def ripupDisp (s : RState) (w : WireId) (cnet : Option NetId) : RState :=
  if w = nullWire then
    match cnet with
    | some n => ripup_net s n
    | none => s
  else ripupWireCore s w

/-- `ripup_wire(wire)` (router1.cc:174). -/
def ripup_wire (s : RState) (wire : WireId) : RState :=
  ripupFlagSet (ripupDisp { s with ripupCalls := s.ripupCalls + 1 }
    (s.ctx.arch.conflictingWireWire s.ctx.bindings wire)
    (s.ctx.arch.conflictingWireNet s.ctx.bindings wire))

/-- `ripup_pip(pip)` (router1.cc:202). -/
def ripup_pip (s : RState) (p : PipId) : RState :=
  ripupFlagSet (ripupDisp { s with ripupCalls := s.ripupCalls + 1 }
    (s.ctx.arch.conflictingPipWire s.ctx.bindings p)
    (s.ctx.arch.conflictingPipNet s.ctx.bindings p))

/-- `skip_net` (router1.cc:230): a net with no driver cell is skipped. -/
def skip_net (arch : Arch) (n : NetId) : Bool :=
  !arch.hasDriver n

/-! ### The A* search of `route_arc` -/

/-- `INT_MAX` (the initial `maxVisitCnt`). -/
def intMaxI : Int := 2147483647

/-- `INT_MAX` as fuel for the search loop: the loop body runs at most
`INT_MAX` times, since `visitCnt` is incremented on every test of the
condition `visitCnt++ < maxVisitCnt` and `maxVisitCnt ≤ INT_MAX`. -/
def intMaxN : Nat := 2147483647

/-- The state of the A* loop: frontier, visited map, pruning bounds, the
shrinking visit budget and the PRNG position. -/
structure AState where
  queue : List QueuedWire
  visited : WireId → Option QueuedWire
  bestEst : Int
  bestScore : Int
  maxVisit : Int
  rngCtr : Nat

/-- The heap key of `QueuedWire::Greater`: `delay + penalty + togo - bonus`. -/
def qwKey (q : QueuedWire) : Int :=
  q.delay + q.penalty + q.togo - q.bonus

/-- Strict order in which `a` is popped before `b` by the wire queue:
smaller key first, ties by smaller `randtag` (the comparator is `Greater`,
so `std::priority_queue` is a min-heap on `(key, randtag)`). -/
def qwBefore (a b : QueuedWire) : Bool :=
  qwKey a < qwKey b || (qwKey a == qwKey b && a.randtag < b.randtag)

/-- Pop of the A* wire queue; an empty queue is UB in C++ and returns a junk
node here. -/
def popQW (q : List QueuedWire) : QueuedWire × List QueuedWire :=
  match q with
  | [] => (⟨0, 0, 0, 0, 0, 0, 0⟩, [])
  | e :: rest =>
    let top := rest.foldl (fun b e' => if qwBefore e' b then e' else b) e
    (top, (e :: rest).erase top)

/-- Conflict discovery for the wire side of a candidate step
(router1.cc:465-474).  `none` means the step is skipped (`continue`).
The result is (conflicting wire, conflicting net). -/
def wireConflict (arch : Arch) (b : Bindings) (ripup : Bool) (nextWire : WireId)
    (wireReuse : Bool) : Option (WireId × Option NetId) :=
  if !arch.checkWireAvail b nextWire && !wireReuse then
    if !ripup then none
    else
      let cww := arch.conflictingWireWire b nextWire
      if cww = nullWire then
        match arch.conflictingWireNet b nextWire with
        | none => none
        | some n => some (nullWire, some n)
      else some (cww, none)
  else some (nullWire, none)

/-- Conflict discovery for the pip side (router1.cc:476-485). -/
def pipConflict (arch : Arch) (b : Bindings) (ripup : Bool) (pip : PipId)
    (pipReuse : Bool) : Option (WireId × Option NetId) :=
  if !arch.checkPipAvail b pip && !pipReuse then
    if !ripup then none
    else
      let cpw := arch.conflictingPipWire b pip
      if cpw = nullWire then
        match arch.conflictingPipNet b pip with
        | none => none
        | some n => some (nullWire, some n)
      else some (cpw, none)
  else some (nullWire, none)

/-- Conflict resolution including the deduplication rules
(router1.cc:459-497).  `none` means `continue`. -/
def resolveConflicts (arch : Arch) (b : Bindings) (ripup : Bool)
    (nextWire : WireId) (pip : PipId) (wireReuse pipReuse : Bool) :
    Option (WireId × WireId × Option NetId × Option NetId) :=
  match wireConflict arch b ripup nextWire wireReuse,
        pipConflict arch b ripup pip pipReuse with
  | some (cww, cwn), some (cpw, cpn) =>
    let cpw := match cwn with
      | some n => if cpw ≠ nullWire ∧ containsKey (netWires b n) cpw then nullWire else cpw
      | none => cpw
    let cww := match cpn with
      | some n => if cww ≠ nullWire ∧ containsKey (netWires b n) cww then nullWire else cww
      | none => cww
    let cww := if cww = cpw then nullWire else cww
    let cwn := if cwn = cpn then none else cwn
    some (cww, cpw, cwn, cpn)
  | _, _ => none

/-- Configuration (`Router1Cfg`). -/
structure Cfg where
  useEstimate : Bool
  wireRipupPenalty : Int
  netRipupPenalty : Int
  wireReuseBonus : Int
  pipReuseBonus : Int
  estimatePrecision : Int

/-- The penalty accumulation of a candidate step (router1.cc:505-533),
starting from the parent's penalty `base`.  An absent score-book entry
contributes nothing beyond the base penalty, which is what the total score
functions (defaulting to 0) encode. -/
def stepPenalty (cfg : Cfg) (wScores : WireId → Nat) (nScores : NetId → Nat)
    (b : Bindings) (base : Int) (cww cpw : WireId) (cwn cpn : Option NetId) : Int :=
  let p := base
  let p := if cww ≠ nullWire then
      p + (wScores cww : Int) * cfg.wireRipupPenalty + cfg.wireRipupPenalty else p
  let p := if cpw ≠ nullWire then
      p + (wScores cpw : Int) * cfg.wireRipupPenalty + cfg.wireRipupPenalty else p
  let p := match cwn with
    | some n => p + (nScores n : Int) * cfg.netRipupPenalty + cfg.netRipupPenalty
                  + ((netWires b n).length : Int) * cfg.wireRipupPenalty
    | none => p
  let p := match cpn with
    | some n => p + (nScores n : Int) * cfg.netRipupPenalty + cfg.netRipupPenalty
                  + ((netWires b n).length : Int) * cfg.wireRipupPenalty
    | none => p
  p

/-- One candidate step of the A* inner loop: the body of the
`for (auto pip : ctx->getPipsDownhill(qw.wire))` loop (router1.cc:451-594).
`visitCnt` is the (already incremented) visit counter of the enclosing
iteration. -/
def astarStep (arch : Arch) (cfg : Cfg) (netId : NetId) (b : Bindings)
    (wScores : WireId → Nat) (nScores : NetId → Nat) (ripup : Bool)
    (dstWire : WireId) (visitCnt : Int) (qw : QueuedWire) (st : AState)
    (pip : PipId) : AState :=
  let nextDelay := qw.delay + arch.pipDelay pip
  let nextWire := arch.pipDst pip
  let nextDelay := nextDelay + arch.wireDelay nextWire
  let nw := netWires b netId
  let wireReuse := containsKey nw nextWire
  let pipReuse := wireReuse && (lookupPipOf nw nextWire == pip)
  match resolveConflicts arch b ripup nextWire pip wireReuse pipReuse with
  | none => st
  | some (cww, cpw, cwn, cpn) =>
    let nextBonus := qw.bonus + (if wireReuse then cfg.wireReuseBonus else 0)
                      + (if pipReuse then cfg.pipReuseBonus else 0)
    let nextPenalty := stepPenalty cfg wScores nScores b qw.penalty cww cpw cwn cpn
    let nextScore := nextDelay + nextPenalty
    if st.bestScore ≥ 0 ∧ nextScore - nextBonus - cfg.estimatePrecision > st.bestScore then st
    else
      let skipVisited : Bool := match st.visited nextWire with
        | some old => nextScore + arch.delayEpsilon ≥ old.delay + old.penalty
        | none => false
      if skipVisited then st
      else
        let togo := if cfg.useEstimate then arch.estimateDelay nextWire dstWire else 0
        if cfg.useEstimate ∧ Int.tdiv (nextDelay + togo) 2 - cfg.estimatePrecision > st.bestEst then st
        else
          let st := if cfg.useEstimate ∧ st.bestEst > nextDelay + togo then
              { st with bestEst := nextDelay + togo } else st
          let nqw : QueuedWire :=
            ⟨nextWire, pip, nextDelay, nextPenalty, nextBonus, togo, arch.rngSeq st.rngCtr⟩
          let st := { st with rngCtr := st.rngCtr + 1,
                              visited := upd st.visited nextWire (some nqw),
                              queue := nqw :: st.queue }
          if nextWire = dstWire then
            let st := if st.maxVisit = intMaxI then { st with maxVisit := 2 * visitCnt } else st
            { st with bestScore := nextScore - nextBonus }
          else st

/-- The A* main loop (router1.cc:446-595).  `fuel` is structural; the loop
condition `visitCnt++ < maxVisitCnt` bounds the iterations by `INT_MAX`, so
fuel `intMaxN + 1` makes the cutoff unreachable. -/
def astarLoop (arch : Arch) (cfg : Cfg) (netId : NetId) (b : Bindings)
    (wScores : WireId → Nat) (nScores : NetId → Nat) (ripup : Bool)
    (dstWire : WireId) : Nat → Int → AState → AState
  | 0, _, st => st
  | fuel + 1, visitCnt, st =>
    if visitCnt < st.maxVisit ∧ st.queue ≠ [] then
      let (qw, rest) := popQW st.queue
      let st1 := { st with queue := rest }
      let st2 := (arch.pipsDownhill qw.wire).foldl
          (astarStep arch cfg netId b wScores nScores ripup dstWire (visitCnt + 1) qw) st1
      astarLoop arch cfg netId b wScores nScores ripup dstWire fuel (visitCnt + 1) st2
    else st

/-- Releasing one wire of the arc's previous route during preparation
(router1.cc:403-412): drop the arc from `wire_to_arcs[w]` and unbind `w`
if no arc uses it any more. -/
def prepStep (arc : ArcKey) (s : RState) (w : WireId) : RState :=
  let aw := eraseAllL arc (s.wireToArcs w)
  let s := { s with wireToArcs := upd s.wireToArcs w aw }
  if aw = [] then unbindOp s w else s

/-- `arc_to_wires[arc]` is emptied and each previously used wire gives up
the arc; wires left with no arcs are unbound (router1.cc:398-412). -/
def prepArc (s : RState) (arc : ArcKey) : RState :=
  let old := s.arcToWires arc
  let s1 := { s with arcToWires := upd s.arcToWires arc [] }
  old.foldl (prepStep arc) s1

/-- The A* search performed by `route_arc` on the prepared state `s1`
(router1.cc:414-595): fresh frontier and visited map, seeded with the source
wire. -/
def routeSearchCore (s1 : RState) (cfg : Cfg) (arc : ArcKey) (ripup : Bool) : AState :=
  let arch := s1.ctx.arch
  let netId := arc.net
  let srcWire := arch.sourceWire netId
  let dstWire := arch.sinkWire netId arc.userIdx
  let delay0 := arch.wireDelay srcWire
  let togo0 := if cfg.useEstimate then arch.estimateDelay srcWire dstWire else 0
  let bestEst0 := if cfg.useEstimate then delay0 + togo0 else 0
  let qw0 : QueuedWire := ⟨srcWire, nullPip, delay0, 0, 0, togo0, arch.rngSeq s1.ctx.rngCounter⟩
  let st0 : AState :=
    ⟨[qw0], upd (fun _ => none) srcWire (some qw0), bestEst0, -1, intMaxI, s1.ctx.rngCounter + 1⟩
  astarLoop arch cfg netId s1.ctx.bindings s1.wireScores s1.netScores ripup dstWire
    (intMaxN + 1) 0 st0

/-- The visited map produced by the search inside `route_arc s cfg arc ripup`
(after the preparation phase). -/
def routeVisited (s : RState) (cfg : Cfg) (arc : ArcKey) (ripup : Bool) :
    WireId → Option QueuedWire :=
  (routeSearchCore (prepArc { s with ripupFlag := false } arc) cfg arc ripup).visited

/-- The pip recorded in the visited map for `cursor` (`visited[cursor].pip`,
with the sentinel for an absent entry, which `route_arc` never hits). -/
def visitedPip (visited : WireId → Option QueuedWire) (cursor : WireId) : PipId :=
  match visited cursor with
  | some q => q.pip
  | none => nullPip

/-- Commit step, wire side (router1.cc:627-630): rip up the cursor wire if
it is unavailable. -/
def commitRipupWire (arch : Arch) (s : RState) (cursor : WireId) : RState :=
  if !arch.checkWireAvail s.ctx.bindings cursor then ripup_wire s cursor else s

/-- Commit step, pip side (router1.cc:632-635). -/
def commitRipupPip (arch : Arch) (s : RState) (pip : PipId) : RState :=
  if pip ≠ nullPip ∧ !arch.checkPipAvail s.ctx.bindings pip then ripup_pip s pip else s

/-- Commit step, binding (router1.cc:637-645): the source wire is bound by
`bindWire`, every other wire through its pip. -/
def commitBindDo (s : RState) (pip : PipId) (cursor : WireId) (netId : NetId) : RState :=
  if pip = nullPip then bindWireOp s cursor netId strengthWeak
  else bindPipOp s pip netId strengthWeak

/-- One commit iteration's binding work (router1.cc:626-646): nothing
happens when the wire is already bound to this net through this pip. -/
def commitBindPhase (arch : Arch) (s : RState) (netId : NetId) (cursor : WireId)
    (pip : PipId) : RState :=
  if !(containsKey (netWires s.ctx.bindings netId) cursor &&
        lookupPipOf (netWires s.ctx.bindings netId) cursor == pip) then
    commitBindDo (commitRipupPip arch (commitRipupWire arch s cursor) pip) pip cursor netId
  else s

/-- The commit walk of `route_arc` (router1.cc:616-655): walk the visited
map from the sink back to the source, ripping up and binding as needed and
attaching each wire to the arc.  The walk's length is bounded in C++ only by
the asserts; `fuel` makes it explicit. -/
def commitLoop (arch : Arch) : Nat → RState → ArcKey → NetId → WireId →
    (WireId → Option QueuedWire) → WireId → RState
  | 0, s, _, _, _, _, _ => s
  | fuel + 1, s, arc, netId, srcWire, visited, cursor =>
    if visitedPip visited cursor = nullPip then
      attachArc (commitBindPhase arch s netId cursor (visitedPip visited cursor)) arc cursor
    else
      commitLoop arch fuel
        (attachArc (commitBindPhase arch s netId cursor (visitedPip visited cursor)) arc cursor)
        arc netId srcWire visited (arch.pipSrc (visitedPip visited cursor))

/-- Overwrite the PRNG position after a search consumed random tags. -/
def rngSet (s : RState) (c : Nat) : RState :=
  { s with ctx := { s.ctx with rngCounter := c } }

/-- Book-keeping after a successful commit (router1.cc:657-662). -/
def routeWrap (s3 : RState) : Bool × RState :=
  if s3.ripupFlag then (true, { s3 with arcsWithRipup := s3.arcsWithRipup + 1 })
  else (true, { s3 with arcsWithoutRipup := s3.arcsWithoutRipup + 1 })

/-- The conclusion of `route_arc` on the prepared state `s1` with search
result `ast` (router1.cc:600-662): fail when the sink was never visited,
otherwise commit the route.  The oracle's static part is unchanged by
preparation, so the source/sink wires read off `s1` are those of the entry
state. -/
def routeCommit (s1 : RState) (arc : ArcKey) (ast : AState) : Bool × RState :=
  match ast.visited (s1.ctx.arch.sinkWire arc.net arc.userIdx) with
  | none => (false, rngSet s1 ast.rngCtr)
  | some _ =>
    routeWrap (commitLoop s1.ctx.arch intMaxN (rngSet s1 ast.rngCtr) arc arc.net
      (s1.ctx.arch.sourceWire arc.net) ast.visited
      (s1.ctx.arch.sinkWire arc.net arc.userIdx))

/-- `route_arc(arc, ripup)` (router1.cc:382-663): reset the rip-up flag,
release the arc's previous route, search, and commit or fail. -/
def route_arc (s : RState) (cfg : Cfg) (arc : ArcKey) (ripup : Bool) : Bool × RState :=
  routeCommit (prepArc { s with ripupFlag := false } arc) arc
    (routeSearchCore (prepArc { s with ripupFlag := false } arc) cfg arc ripup)

/-! ### Setup (router1.cc:296-380) -/

/-- The backward walk of setup (router1.cc:351-366) in functional form:
starting at the wire after `cursor`'s map entry, follow the stored pips
toward `src`.  Returns the wires attached after `cursor` (in attach order)
and whether the walk reached the source.  Fuel exhaustion corresponds to a
cyclic stored route, on which the C++ loop would not terminate. -/
def setupWalk (arch : Arch) (nw : Bindings) (srcW : WireId) :
    Nat → WireId → List WireId × Bool
  | 0, _ => ([], false)
  | fuel + 1, cursor =>
    if srcW = cursor then ([], true)
    else
      match lookupKey nw cursor with
      | none => ([], false)
      | some bi =>
        let next := arch.pipSrc bi.pip
        let r := setupWalk arch nw srcW fuel next
        (next :: r.1, r.2)

/-- The wires attached by one arc's setup walk: the sink wire, then the
wires encountered walking backward. -/
def setupWalkWires (arch : Arch) (nw : Bindings) (srcW dstW : WireId) : List WireId :=
  dstW :: (setupWalk arch nw srcW (nw.length + 1) dstW).1

/-- Whether the backward walk from the sink reaches the source within the
net's wire map. -/
def setupWalkReaches (arch : Arch) (nw : Bindings) (srcW dstW : WireId) : Bool :=
  (setupWalk arch nw srcW (nw.length + 1) dstW).2

/-- Accumulator state of setup: the router state, the `src_to_net` and
`dst_to_arc` sanity maps and the error flag (`log_error` aborts). -/
structure SetupSt where
  rs : RState
  srcToNet : List (WireId × NetId)
  dstToArc : List (WireId × ArcKey)
  err : Bool

/-- Attach the arc to every wire of its setup walk. -/
def setupAttachAll (arc : ArcKey) (rs : RState) (ws : List WireId) : RState :=
  ws.foldl (fun s w => attachArc s arc w) rs

/-- The routing-state part of one user's setup (router1.cc:346-366): enqueue
the arc when the source is unrouted, otherwise adopt the stored walk,
enqueueing the arc additionally when the walk is broken. -/
def setupUserRoute (arch : Arch) (n : NetId) (srcW dstW : WireId) (arc : ArcKey)
    (rs : RState) : RState :=
  if !containsKey (netWires rs.ctx.bindings n) srcW then
    arc_queue_insert2 rs arc srcW dstW
  else if setupWalkReaches arch (netWires rs.ctx.bindings n) srcW dstW then
    setupAttachAll arc rs (setupWalkWires arch (netWires rs.ctx.bindings n) srcW dstW)
  else
    arc_queue_insert2
      (setupAttachAll arc rs (setupWalkWires arch (netWires rs.ctx.bindings n) srcW dstW))
      arc srcW dstW

/-- Setup processing of one user of a net (router1.cc:322-367). -/
def setupUser (arch : Arch) (n : NetId) (srcW : WireId) (st : SetupSt) (i : Nat) : SetupSt :=
  if st.err then st
  else if arch.sinkWire n i = nullWire then { st with err := true }
  else
    match st.dstToArc.find? (fun e => e.1 == arch.sinkWire n i) with
    | some e =>
      if e.2.net = n then st else { st with err := true }
    | none =>
      if (st.srcToNet.find? (fun e => e.1 == arch.sinkWire n i)).isSome then
        { st with err := true }
      else
        { st with
          dstToArc := (arch.sinkWire n i, ⟨n, i⟩) :: st.dstToArc,
          rs := setupUserRoute arch n srcW (arch.sinkWire n i) ⟨n, i⟩ st.rs }

/-- The orphan wires of a net at the end of its setup (router1.cc:371-375):
bound below locked strength and used by no arc. -/
def setupOrphans (rs : RState) (n : NetId) : Bindings :=
  (netWires rs.ctx.bindings n).filter
    (fun e => e.2.strength < strengthLocked && (rs.wireToArcs e.1).isEmpty)

/-- Conclusion of one net's setup (router1.cc:369-378): register the source
wire and unbind the orphans. -/
def setupNetFinish (n : NetId) (srcW : WireId) (st : SetupSt) : SetupSt :=
  if st.err then st
  else
    { st with srcToNet := (srcW, n) :: st.srcToNet,
              rs := (setupOrphans st.rs n).foldl (fun s e => unbindOp s e.1) st.rs }

/-- Setup processing of one net (router1.cc:301-379). -/
def setupNet (arch : Arch) (st : SetupSt) (n : NetId) : SetupSt :=
  if st.err then st
  else if skip_net arch n then st
  else if arch.sourceWire n = nullWire then { st with err := true }
  else if (st.srcToNet.find? (fun e => e.1 == arch.sourceWire n)).isSome then
    { st with err := true }
  else if (st.dstToArc.find? (fun e => e.1 == arch.sourceWire n)).isSome then
    { st with err := true }
  else
    setupNetFinish n (arch.sourceWire n)
      ((List.range (arch.usersCount n)).foldl (setupUser arch n (arch.sourceWire n)) st)

/-- `Router1::setup()` on a fresh router over the design `(arch, b0)`.
Returns the resulting state and whether setup completed without a
`log_error` abort. -/
def setup (arch : Arch) (b0 : Bindings) : RState × Bool :=
  let st := arch.nets.foldl (setupNet arch) ⟨initState arch b0, [], [], false⟩
  (st.rs, !st.err)

/-- The outer loop of `router1` (router1.cc:710-738): drain the work queue;
a failed arc is reported and aborts with overall failure.  Fuel exhaustion
returns like the normal loop exit. -/
def routerLoop (cfg : Cfg) : Nat → RState → Bool × Option ArcKey × RState
  | 0, s => (true, none, s)
  | fuel + 1, s =>
    if s.arcQueue.isEmpty then (true, none, s)
    else if (route_arc (arc_queue_pop s).2 cfg (arc_queue_pop s).1 true).1 then
      routerLoop cfg fuel (route_arc (arc_queue_pop s).2 cfg (arc_queue_pop s).1 true).2
    else
      (false, some (arc_queue_pop s).1,
        (route_arc (arc_queue_pop s).2 cfg (arc_queue_pop s).1 true).2)

/-- `router1(ctx, cfg)` (router1.cc:686): setup, then the outer loop.  The
reported arc of a routing failure is returned as the middle component. -/
def router1 (cfg : Cfg) (arch : Arch) (b0 : Bindings) (fuel : Nat) :
    Bool × Option ArcKey × RState :=
  let r := setup arch b0
  if !r.2 then (false, none, r.1)
  else routerLoop cfg fuel r.1

/-! ### Post-route validator (`Context::checkRoutedDesign`, router1.cc:766-927)

The debug-only logging (including the extra traversals of dangling roots,
which run only under `ctx->debug` and cannot change the return value, since
`dangling_wires` is already non-empty there) is omitted. -/

/-- Flags and visited set of the recursive `setOrderNum` traversal.  A wire
is "marked" iff its `order_num` is non-zero. -/
structure Trav where
  marked : List WireId
  loop : Bool
  stub : Bool
deriving DecidableEq, Repr

/-- Children of `u` in the net's switch graph `db`: the bound wires whose
stored pip has source `u` (router1.cc:794-802). -/
def childrenOf (arch : Arch) (nw : Bindings) (u : WireId) : List WireId :=
  (nw.filter (fun e => e.2.pip != nullPip && arch.pipSrc e.2.pip == u)).map (·.1)

/-- The initially present `db` keys: the source wires of bound pips. -/
def parentsList (arch : Arch) (nw : Bindings) : List WireId :=
  (nw.filter (fun e => e.2.pip != nullPip)).map (fun e => arch.pipSrc e.2.pip)

/-- `setOrderNum` (router1.cc:829-854): depth-first traversal of the switch
graph, flagging re-entry into a marked wire as a loop and a reached leaf
that is not a sink as a stub.  The recursion depth is bounded by the number
of distinct marked wires, hence the explicit fuel. -/
def travLeafCheck (dests : List WireId) (w : WireId) (ch : List WireId)
    (st : Trav) : Trav :=
  if ch.isEmpty then (if w ∈ dests then st else ⟨st.marked, st.loop, true⟩)
  else st

def setOrderNum (arch : Arch) (nw : Bindings) (dests : List WireId) :
    Nat → WireId → Trav → Trav
  | 0, _, st => st
  | fuel + 1, w, st =>
    if w ∈ st.marked then ⟨st.marked, true, st.stub⟩
    else
      travLeafCheck dests w (childrenOf arch nw w)
        ((childrenOf arch nw w).foldl
          (fun s c => setOrderNum arch nw dests fuel c s)
          ⟨w :: st.marked, st.loop, st.stub⟩)

/-- `setOrderNum` instrumented with the list of call entries; used to reason
about re-entry.  Its projection to `Trav` coincides with `setOrderNum`. -/
structure TravI where
  marked : List WireId
  loop : Bool
  stub : Bool
  entries : List WireId

/-- Forget the instrumentation. -/
def TravI.toTrav (st : TravI) : Trav := ⟨st.marked, st.loop, st.stub⟩

/-- Leaf check of the instrumented traversal. -/
def travLeafCheckI (dests : List WireId) (w : WireId) (ch : List WireId)
    (st : TravI) : TravI :=
  if ch.isEmpty then
    (if w ∈ dests then st else ⟨st.marked, st.loop, true, st.entries⟩)
  else st

/-- Instrumented traversal. -/
def setOrderNumI (arch : Arch) (nw : Bindings) (dests : List WireId) :
    Nat → WireId → TravI → TravI
  | 0, _, st => st
  | fuel + 1, w, st =>
    if w ∈ st.marked then ⟨st.marked, true, st.stub, st.entries ++ [w]⟩
    else
      travLeafCheckI dests w (childrenOf arch nw w)
        ((childrenOf arch nw w).foldl
          (fun s c => setOrderNumI arch nw dests fuel c s)
          ⟨w :: st.marked, st.loop, st.stub, st.entries ++ [w]⟩)

/-- The sink wires of a net (`dest_wires`, router1.cc:813-817). -/
def checkNetDests (arch : Arch) (n : NetId) : List WireId :=
  (List.range (arch.usersCount n)).map (arch.sinkWire n)

/-- `found_unrouted` (router1.cc:807-824): the source or some sink wire is
not bound to the net. -/
def checkNetUnrouted (nw : Bindings) (srcW : WireId)
    (dests : List WireId) : Bool :=
  !containsKey nw srcW || dests.any (fun d => !containsKey nw d)

/-- The traversal run by the validator on one net: `setOrderNum(src, 1)` on
a fresh state.  The fuel `|wires| + 2` bounds the recursion depth, which
never exceeds the number of distinct marked wires plus one. -/
def checkNetTrav (arch : Arch) (nw : Bindings) (dests : List WireId)
    (srcW : WireId) : Trav :=
  setOrderNum arch nw dests (nw.length + 2) srcW ⟨[], false, false⟩

/-- `dangling_wires` (router1.cc:862-867): `db` keys never reached. -/
def checkNetDangling (arch : Arch) (nw : Bindings) (tr : Trav) : List WireId :=
  (parentsList arch nw).filter (fun u => !(tr.marked.contains u))

/-- Validation of one net (router1.cc:770-924): a net with no users passes
(the C++ additionally asserts that it holds no wires); otherwise the source
and all sinks must be bound, and the traversal must flag no loop, no stub
and leave no dangling `db` entry unmarked. -/
def checkNetRouted (arch : Arch) (b : Bindings) (n : NetId) : Bool :=
  if arch.usersCount n = 0 then true
  else
    !(checkNetUnrouted (netWires b n) (arch.sourceWire n) (checkNetDests arch n) ||
      (checkNetTrav arch (netWires b n) (checkNetDests arch n) (arch.sourceWire n)).loop ||
      (checkNetTrav arch (netWires b n) (checkNetDests arch n) (arch.sourceWire n)).stub ||
      !(checkNetDangling arch (netWires b n)
          (checkNetTrav arch (netWires b n) (checkNetDests arch n)
            (arch.sourceWire n))).isEmpty)

/-- `Context::checkRoutedDesign`. -/
def checkRoutedDesign (arch : Arch) (b : Bindings) : Bool :=
  arch.nets.all (checkNetRouted arch b)

/-! ### Specification-side view of the switch graph

The traversal follows pip edges forward; since each bound wire stores at
most one driving pip, walking edges backward is a partial function
(`parOf`), and reachability from the source is the existence of a backward
parent chain. -/

/-- The switch-graph parent of `v`: the source wire of `v`'s stored pip. -/
def parOf (arch : Arch) (nw : Bindings) (v : WireId) : Option WireId :=
  match lookupKey nw v with
  | some bi => if bi.pip ≠ nullPip then some (arch.pipSrc bi.pip) else none
  | none => none

/-- Iterated parent chain. -/
def parIter (arch : Arch) (nw : Bindings) : Nat → WireId → Option WireId
  | 0, v => some v
  | k + 1, v =>
    match parOf arch nw v with
    | some u => parIter arch nw k u
    | none => none

/-- `v` is reached from `src` by the validator's traversal: some backward
parent chain from `v` ends at `src`. -/
def ReachW (arch : Arch) (nw : Bindings) (src v : WireId) : Prop :=
  ∃ k, parIter arch nw k v = some src

/-- The traversal starting at `src` encounters a cycle: `src` lies on a
pip cycle, i.e. `src` has a parent that is itself reachable from `src`. -/
def SrcOnCycle (arch : Arch) (nw : Bindings) (src : WireId) : Prop :=
  ∃ u, parOf arch nw src = some u ∧ ReachW arch nw src u

/-- The binding map has no duplicate wire keys (an `unordered_map` cannot). -/
abbrev keysNodup (b : Bindings) : Prop := (b.map (·.1)).Nodup

/-- The conditions of claim C5 shared by the original and the amended
reading: source bound, sinks bound, no cycle met by the traversal, every
reached leaf a sink. -/
def C5CoreConds (arch : Arch) (b : Bindings) (n : NetId) : Prop :=
  containsKey (netWires b n) (arch.sourceWire n) = true ∧
  (∀ i < arch.usersCount n, containsKey (netWires b n) (arch.sinkWire n i) = true) ∧
  ¬ SrcOnCycle arch (netWires b n) (arch.sourceWire n) ∧
  (∀ v, ReachW arch (netWires b n) (arch.sourceWire n) v →
      childrenOf arch (netWires b n) v = [] → ∃ i < arch.usersCount n, arch.sinkWire n i = v)

/-- The per-net conditions exactly as claim C5 states them: the dangling
clause requires every wire bound to the net to be reached. -/
def C5NetConds (arch : Arch) (b : Bindings) (n : NetId) : Prop :=
  C5CoreConds arch b n ∧
  ∀ e ∈ netWires b n, ReachW arch (netWires b n) (arch.sourceWire n) e.1

/-- The amended per-net conditions: the dangling clause only constrains the
wires that appear as the source of some bound pip (the validator's `db`
keys). -/
def C5NetCondsAmended (arch : Arch) (b : Bindings) (n : NetId) : Prop :=
  C5CoreConds arch b n ∧
  ∀ u ∈ parentsList arch (netWires b n), ReachW arch (netWires b n) (arch.sourceWire n) u

/-! ### Claim-side predicates for setup idempotence (C6) -/

/-- Claim C6's hypothesis, as stated: on every non-skipped net, each arc's
backward walk from its sink through the stored switch-per-wire map reaches
the source wire, and every bound wire of the net is covered by some arc's
walk. -/
abbrev FullyRouted (arch : Arch) (b0 : Bindings) : Prop :=
  ∀ n ∈ arch.nets, skip_net arch n = false →
    (∀ i < arch.usersCount n,
        setupWalkReaches arch (netWires b0 n) (arch.sourceWire n) (arch.sinkWire n i) = true) ∧
    (∀ e ∈ netWires b0 n, ∃ i < arch.usersCount n,
        e.1 ∈ setupWalkWires arch (netWires b0 n) (arch.sourceWire n) (arch.sinkWire n i))

/-- The additional hypothesis the counterexample forces: the source wire of
every non-skipped net with at least one user is itself bound to the net. -/
abbrev SourcesBound (arch : Arch) (b0 : Bindings) : Prop :=
  ∀ n ∈ arch.nets, skip_net arch n = false → 1 ≤ arch.usersCount n →
    containsKey (netWires b0 n) (arch.sourceWire n) = true

/-- Intermediate property of the setup run over a routed design: no arc has
been enqueued and the oracle is untouched. -/
def SetupPres (b0 : Bindings) (st : SetupSt) : Prop :=
  st.rs.arcQueue = [] ∧ st.rs.ctx.bindings = b0 ∧ st.rs.ctx.events = []

/-- Intermediate property of the setup run over a routed design: every sink
registered in `dst_to_arc` has the wires of its walk attached to some arc. -/
def SetupCover (arch : Arch) (b0 : Bindings) (st : SetupSt) : Prop :=
  st.err = false → ∀ e ∈ st.dstToArc,
    ∀ w ∈ setupWalkWires arch (netWires b0 e.2.net) (arch.sourceWire e.2.net) e.1,
      st.rs.wireToArcs w ≠ []

/-! ### Invariant statements -/

/-- Claim C2's invariant: `wire_to_arcs` and `arc_to_wires` are mutual
inverses. -/
def ArcIndexInv (s : RState) : Prop :=
  ∀ w a, a ∈ s.wireToArcs w ↔ w ∈ s.arcToWires a

/-- Claim C9's invariant: the queue holds each arc at most once, and
`queued_arcs` is exactly the set of queued arcs. -/
def QueueInv (s : RState) : Prop :=
  (s.arcQueue.map (·.arc)).Nodup ∧
  ∀ a, a ∈ s.queuedArcs ↔ a ∈ s.arcQueue.map (·.arc)

/-- Spec-side penalty of one live wire conflict:
`wireRipupPenalty · (1 + score)` with an absent score read as zero. -/
def specWirePenalty (cfg : Cfg) (wScores : WireId → Nat) (w : WireId) : Int :=
  if w ≠ nullWire then cfg.wireRipupPenalty * (1 + (wScores w : Int)) else 0

/-- Spec-side penalty of one live net conflict:
`netRipupPenalty · (1 + score) + wireRipupPenalty · |net.wires|`. -/
def specNetPenalty (cfg : Cfg) (nScores : NetId → Nat) (b : Bindings)
    (c : Option NetId) : Int :=
  match c with
  | some n => cfg.netRipupPenalty * (1 + (nScores n : Int))
      + cfg.wireRipupPenalty * ((netWires b n).length : Int)
  | none => 0

/-! ### Concrete designs used as witnesses and counterexamples -/

/-- A configuration with arbitrary positive penalties. -/
def cfg0 : Cfg := ⟨true, 10, 100, 1, 5, 1000⟩

/-- A fabric with no pips at all: net 0 drives wire 1 and has two users on
wire 2, with budgets 10 (user 0) and 5 (user 1); every estimate is 100. -/
def archA : Arch where
  pipSrc := fun _ => 0
  pipDst := fun _ => 0
  pipsDownhill := fun _ => []
  wireDelay := fun _ => 0
  pipDelay := fun _ => 0
  estimateDelay := fun _ _ => 100
  delayEpsilon := 0
  sourceWire := fun _ => 1
  sinkWire := fun _ _ => 2
  usersCount := fun _ => 2
  budget := fun _ i => if i = 0 then 10 else 5
  hasDriver := fun _ => true
  nets := [0]
  rngSeq := fun _ => 0
  checkWireAvail := fun _ _ => true
  checkPipAvail := fun _ _ => true
  conflictingWireWire := fun _ _ => 0
  conflictingWireNet := fun _ _ => none
  conflictingPipWire := fun _ _ => 0
  conflictingPipNet := fun _ _ => none

/-- Work queue holding both arcs of net 0 of `archA`: priorities are
`100 - 10 = 90` for user 0 and `100 - 5 = 95` for user 1. -/
def stateC1 : RState :=
  arc_queue_insert (arc_queue_insert (initState archA []) ⟨0, 0⟩) ⟨0, 1⟩

/-- A fabric with one net (source wire 1, one user on wire 2) and one pip
`5 : 1 → 2`. -/
def archC : Arch where
  pipSrc := fun p => if p = 5 then 1 else 0
  pipDst := fun p => if p = 5 then 2 else 0
  pipsDownhill := fun w => if w = 1 then [5] else []
  wireDelay := fun _ => 0
  pipDelay := fun _ => 0
  estimateDelay := fun _ _ => 0
  delayEpsilon := 0
  sourceWire := fun _ => 1
  sinkWire := fun _ _ => 2
  usersCount := fun _ => 1
  budget := fun _ _ => 0
  hasDriver := fun _ => true
  nets := [0]
  rngSeq := fun _ => 0
  checkWireAvail := fun _ _ => true
  checkPipAvail := fun _ _ => true
  conflictingWireWire := fun _ _ => 0
  conflictingWireNet := fun _ _ => none
  conflictingPipWire := fun _ _ => 0
  conflictingPipNet := fun _ _ => none

/-- Routed bindings for `archC` plus an isolated wire 3 bound to the net
with no pip: sink 2 driven by pip 5, source 1 bound directly. -/
def bindC5 : Bindings := [(2, ⟨0, 5, 1⟩), (1, ⟨0, 0, 1⟩), (3, ⟨0, 0, 1⟩)]

/-- Cleanly routed bindings for `archC`. -/
def bindOk : Bindings := [(2, ⟨0, 5, 1⟩), (1, ⟨0, 0, 1⟩)]

/-- Bindings for `archC` where the route is stored but the source wire
itself is not bound. -/
def bindC6 : Bindings := [(2, ⟨0, 5, 1⟩)]

/-- A router state over `archA` in which arc (0,0) currently occupies the
bound wire 7 as its whole route; routing the arc again will fail (no pips)
after the preparation phase has detached and unbound wire 7. -/
def stateC10 : RState :=
  attachArc (initState archA [(7, ⟨0, 0, 1⟩)]) ⟨0, 0⟩ 7

/-! ## Helper lemmas -/

theorem prepStep_eq (arc : ArcKey) (s : RState) (w : WireId) :
    prepStep arc s w =
      if eraseAllL arc (s.wireToArcs w) = [] then
        unbindOp { s with wireToArcs := upd s.wireToArcs w (eraseAllL arc (s.wireToArcs w)) } w
      else { s with wireToArcs := upd s.wireToArcs w (eraseAllL arc (s.wireToArcs w)) } := rfl

theorem prepArc_eq (s : RState) (arc : ArcKey) :
    prepArc s arc =
      (s.arcToWires arc).foldl (prepStep arc)
        { s with arcToWires := upd s.arcToWires arc [] } := rfl


theorem upd_apply {α β : Type} [DecidableEq α] (f : α → β) (a : α) (v : β) (a' : α) :
    upd f a v a' = if a' = a then v else f a' := rfl

theorem mem_eraseAllL {α : Type} [DecidableEq α] {x y : α} {l : List α} :
    y ∈ eraseAllL x l ↔ y ∈ l ∧ y ≠ x := by
  simp [eraseAllL]

theorem eraseAllL_idem {α : Type} [DecidableEq α] (x : α) (l : List α) :
    eraseAllL x (eraseAllL x l) = eraseAllL x l := by
  simp [eraseAllL, List.filter_filter]

/-! ## Claim C3: the conflict penalty formula -/

/-- C3.  In the A* step cost of `route_arc`, the penalty added on top of the
parent's penalty is `wireRipupPenalty * (1 + wireScores[w])` for each live
conflicting wire (once for the wire-side and once for the pip-side conflict,
an absent score reading as zero), and
`netRipupPenalty * (1 + netScores[n]) + wireRipupPenalty * |n.wires|` for
each live conflicting net. -/
theorem c3_step_penalty_formula (cfg : Cfg) (wScores : WireId → Nat)
    (nScores : NetId → Nat) (b : Bindings) (base : Int) (cww cpw : WireId)
    (cwn cpn : Option NetId) :
    stepPenalty cfg wScores nScores b base cww cpw cwn cpn =
      base + specWirePenalty cfg wScores cww + specWirePenalty cfg wScores cpw
        + specNetPenalty cfg nScores b cwn + specNetPenalty cfg nScores b cpn := by
  unfold stepPenalty specWirePenalty specNetPenalty
  rcases cwn with _ | n <;> rcases cpn with _ | m <;>
    by_cases h1 : cww = nullWire <;> by_cases h2 : cpw = nullWire <;>
    simp [h1, h2] <;> ring

/-! ## Claim C1: order of the arc work queue

`arc_queue` is a `std::priority_queue` ordered by `arc_entry::Greater`
(`lhs.pri > rhs.pri`), i.e. a min-heap on `pri`: the SMALLEST priority is
popped first.  The claim (and the spec) say the largest priority — the
tightest budget — pops first; the code does the opposite. -/

/-- C1 (failing input).  In `stateC1` net 0's two arcs share their endpoints
and the graph; user 0 has the looser budget 10 (priority `100 - 10 = 90`)
and user 1 the tighter budget 5 (priority `100 - 5 = 95`).  `arc_queue_pop`
returns user 0 — the arc with the SMALLEST priority and the LOOSER budget —
while the claim requires user 1. -/
theorem c1_pop_returns_smallest_priority :
    stateC1.arcQueue = [⟨⟨0, 1⟩, 95⟩, ⟨⟨0, 0⟩, 90⟩] ∧
    archA.budget 0 0 = 10 ∧ archA.budget 0 1 = 5 ∧
    (arc_queue_pop stateC1).1 = ⟨0, 0⟩ := by decide

/-! ## Claim C7: determinism -/

/-- C7.  Two runs of `router1` on the same design with the same oracle (the
same PRNG stream, the same `estimateDelay`, the same routing graph and
queries) produce the same result: in particular the same sequence of
bind/unbind events and the same final bindings.  The embedding threads all
oracle state explicitly, so the run is a function of the oracle and the
design. -/
theorem c7_determinism (a1 a2 : Arch) (b0 : Bindings) (cfg : Cfg) (fuel : Nat)
    (h1 : a1.pipSrc = a2.pipSrc) (h2 : a1.pipDst = a2.pipDst)
    (h3 : a1.pipsDownhill = a2.pipsDownhill) (h4 : a1.wireDelay = a2.wireDelay)
    (h5 : a1.pipDelay = a2.pipDelay) (h6 : a1.estimateDelay = a2.estimateDelay)
    (h7 : a1.delayEpsilon = a2.delayEpsilon) (h8 : a1.sourceWire = a2.sourceWire)
    (h9 : a1.sinkWire = a2.sinkWire) (h10 : a1.usersCount = a2.usersCount)
    (h11 : a1.budget = a2.budget) (h12 : a1.hasDriver = a2.hasDriver)
    (h13 : a1.nets = a2.nets) (h14 : a1.rngSeq = a2.rngSeq)
    (h15 : a1.checkWireAvail = a2.checkWireAvail)
    (h16 : a1.checkPipAvail = a2.checkPipAvail)
    (h17 : a1.conflictingWireWire = a2.conflictingWireWire)
    (h18 : a1.conflictingWireNet = a2.conflictingWireNet)
    (h19 : a1.conflictingPipWire = a2.conflictingPipWire)
    (h20 : a1.conflictingPipNet = a2.conflictingPipNet) :
    router1 cfg a1 b0 fuel = router1 cfg a2 b0 fuel ∧
    (router1 cfg a1 b0 fuel).2.2.ctx.events = (router1 cfg a2 b0 fuel).2.2.ctx.events ∧
    (router1 cfg a1 b0 fuel).2.2.ctx.bindings = (router1 cfg a2 b0 fuel).2.2.ctx.bindings := by
  have ha : a1 = a2 := by cases a1; cases a2; simp_all
  subst ha
  exact ⟨rfl, rfl, rfl⟩

/-- C7 witness: the determinism theorem applied to the concrete design
`(archA, [])`. -/
theorem c7_determinism_witness :
    router1 cfg0 archA [] 1 = router1 cfg0 archA [] 1 ∧
    (router1 cfg0 archA [] 1).2.2.ctx.events = (router1 cfg0 archA [] 1).2.2.ctx.events ∧
    (router1 cfg0 archA [] 1).2.2.ctx.bindings = (router1 cfg0 archA [] 1).2.2.ctx.bindings :=
  c7_determinism archA archA [] cfg0 1 rfl rfl rfl rfl rfl rfl rfl rfl rfl rfl
    rfl rfl rfl rfl rfl rfl rfl rfl rfl rfl

/-! ## Effects of the primitive operations on the router state -/

@[simp] theorem bindWireOp_wireToArcs (s : RState) (w : WireId) (n : NetId) (str : Nat) :
    (bindWireOp s w n str).wireToArcs = s.wireToArcs := rfl

@[simp] theorem bindWireOp_arcToWires (s : RState) (w : WireId) (n : NetId) (str : Nat) :
    (bindWireOp s w n str).arcToWires = s.arcToWires := rfl

@[simp] theorem bindWireOp_arcQueue (s : RState) (w : WireId) (n : NetId) (str : Nat) :
    (bindWireOp s w n str).arcQueue = s.arcQueue := rfl

@[simp] theorem bindWireOp_queuedArcs (s : RState) (w : WireId) (n : NetId) (str : Nat) :
    (bindWireOp s w n str).queuedArcs = s.queuedArcs := rfl

@[simp] theorem bindWireOp_wireScores (s : RState) (w : WireId) (n : NetId) (str : Nat) :
    (bindWireOp s w n str).wireScores = s.wireScores := rfl

@[simp] theorem bindWireOp_netScores (s : RState) (w : WireId) (n : NetId) (str : Nat) :
    (bindWireOp s w n str).netScores = s.netScores := rfl

@[simp] theorem bindWireOp_ripupCalls (s : RState) (w : WireId) (n : NetId) (str : Nat) :
    (bindWireOp s w n str).ripupCalls = s.ripupCalls := rfl

@[simp] theorem bindPipOp_wireToArcs (s : RState) (p : PipId) (n : NetId) (str : Nat) :
    (bindPipOp s p n str).wireToArcs = s.wireToArcs := rfl

@[simp] theorem bindPipOp_arcToWires (s : RState) (p : PipId) (n : NetId) (str : Nat) :
    (bindPipOp s p n str).arcToWires = s.arcToWires := rfl

@[simp] theorem bindPipOp_arcQueue (s : RState) (p : PipId) (n : NetId) (str : Nat) :
    (bindPipOp s p n str).arcQueue = s.arcQueue := rfl

@[simp] theorem bindPipOp_queuedArcs (s : RState) (p : PipId) (n : NetId) (str : Nat) :
    (bindPipOp s p n str).queuedArcs = s.queuedArcs := rfl

@[simp] theorem bindPipOp_wireScores (s : RState) (p : PipId) (n : NetId) (str : Nat) :
    (bindPipOp s p n str).wireScores = s.wireScores := rfl

@[simp] theorem bindPipOp_netScores (s : RState) (p : PipId) (n : NetId) (str : Nat) :
    (bindPipOp s p n str).netScores = s.netScores := rfl

@[simp] theorem bindPipOp_ripupCalls (s : RState) (p : PipId) (n : NetId) (str : Nat) :
    (bindPipOp s p n str).ripupCalls = s.ripupCalls := rfl

@[simp] theorem unbindOp_wireToArcs (s : RState) (w : WireId) :
    (unbindOp s w).wireToArcs = s.wireToArcs := rfl

@[simp] theorem unbindOp_arcToWires (s : RState) (w : WireId) :
    (unbindOp s w).arcToWires = s.arcToWires := rfl

@[simp] theorem unbindOp_arcQueue (s : RState) (w : WireId) :
    (unbindOp s w).arcQueue = s.arcQueue := rfl

@[simp] theorem unbindOp_queuedArcs (s : RState) (w : WireId) :
    (unbindOp s w).queuedArcs = s.queuedArcs := rfl

@[simp] theorem unbindOp_wireScores (s : RState) (w : WireId) :
    (unbindOp s w).wireScores = s.wireScores := rfl

@[simp] theorem unbindOp_netScores (s : RState) (w : WireId) :
    (unbindOp s w).netScores = s.netScores := rfl

@[simp] theorem unbindOp_ripupCalls (s : RState) (w : WireId) :
    (unbindOp s w).ripupCalls = s.ripupCalls := rfl

@[simp] theorem unbindOp_events (s : RState) (w : WireId) :
    (unbindOp s w).ctx.events = Event.unbind w :: s.ctx.events := rfl

@[simp] theorem attachArc_wireToArcs (s : RState) (a : ArcKey) (w : WireId) :
    (attachArc s a w).wireToArcs = upd s.wireToArcs w ((s.wireToArcs w).insert a) := rfl

@[simp] theorem attachArc_arcToWires (s : RState) (a : ArcKey) (w : WireId) :
    (attachArc s a w).arcToWires = upd s.arcToWires a ((s.arcToWires a).insert w) := rfl

@[simp] theorem attachArc_arcQueue (s : RState) (a : ArcKey) (w : WireId) :
    (attachArc s a w).arcQueue = s.arcQueue := rfl

@[simp] theorem attachArc_queuedArcs (s : RState) (a : ArcKey) (w : WireId) :
    (attachArc s a w).queuedArcs = s.queuedArcs := rfl

@[simp] theorem attachArc_wireScores (s : RState) (a : ArcKey) (w : WireId) :
    (attachArc s a w).wireScores = s.wireScores := rfl

@[simp] theorem attachArc_netScores (s : RState) (a : ArcKey) (w : WireId) :
    (attachArc s a w).netScores = s.netScores := rfl

@[simp] theorem attachArc_ctx (s : RState) (a : ArcKey) (w : WireId) :
    (attachArc s a w).ctx = s.ctx := rfl

@[simp] theorem attachArc_ripupCalls (s : RState) (a : ArcKey) (w : WireId) :
    (attachArc s a w).ripupCalls = s.ripupCalls := rfl

@[simp] theorem arc_queue_insert2_wireToArcs (s : RState) (a : ArcKey) (sw dw : WireId) :
    (arc_queue_insert2 s a sw dw).wireToArcs = s.wireToArcs := by
  unfold arc_queue_insert2; split <;> rfl

@[simp] theorem arc_queue_insert2_arcToWires (s : RState) (a : ArcKey) (sw dw : WireId) :
    (arc_queue_insert2 s a sw dw).arcToWires = s.arcToWires := by
  unfold arc_queue_insert2; split <;> rfl

@[simp] theorem arc_queue_insert2_wireScores (s : RState) (a : ArcKey) (sw dw : WireId) :
    (arc_queue_insert2 s a sw dw).wireScores = s.wireScores := by
  unfold arc_queue_insert2; split <;> rfl

@[simp] theorem arc_queue_insert2_netScores (s : RState) (a : ArcKey) (sw dw : WireId) :
    (arc_queue_insert2 s a sw dw).netScores = s.netScores := by
  unfold arc_queue_insert2; split <;> rfl

@[simp] theorem arc_queue_insert2_ctx (s : RState) (a : ArcKey) (sw dw : WireId) :
    (arc_queue_insert2 s a sw dw).ctx = s.ctx := by
  unfold arc_queue_insert2; split <;> rfl

@[simp] theorem arc_queue_insert2_ripupCalls (s : RState) (a : ArcKey) (sw dw : WireId) :
    (arc_queue_insert2 s a sw dw).ripupCalls = s.ripupCalls := by
  unfold arc_queue_insert2; split <;> rfl

@[simp] theorem arc_queue_insert2_ripupFlag (s : RState) (a : ArcKey) (sw dw : WireId) :
    (arc_queue_insert2 s a sw dw).ripupFlag = s.ripupFlag := by
  unfold arc_queue_insert2; split <;> rfl

@[simp] theorem arc_queue_insert_wireToArcs (s : RState) (a : ArcKey) :
    (arc_queue_insert s a).wireToArcs = s.wireToArcs := by
  unfold arc_queue_insert; split <;> simp

@[simp] theorem arc_queue_insert_arcToWires (s : RState) (a : ArcKey) :
    (arc_queue_insert s a).arcToWires = s.arcToWires := by
  unfold arc_queue_insert; split <;> simp

@[simp] theorem arc_queue_insert_wireScores (s : RState) (a : ArcKey) :
    (arc_queue_insert s a).wireScores = s.wireScores := by
  unfold arc_queue_insert; split <;> simp

@[simp] theorem arc_queue_insert_netScores (s : RState) (a : ArcKey) :
    (arc_queue_insert s a).netScores = s.netScores := by
  unfold arc_queue_insert; split <;> simp

@[simp] theorem arc_queue_insert_ctx (s : RState) (a : ArcKey) :
    (arc_queue_insert s a).ctx = s.ctx := by
  unfold arc_queue_insert; split <;> simp

@[simp] theorem arc_queue_insert_ripupCalls (s : RState) (a : ArcKey) :
    (arc_queue_insert s a).ripupCalls = s.ripupCalls := by
  unfold arc_queue_insert; split <;> simp

@[simp] theorem arc_queue_insert_ripupFlag (s : RState) (a : ArcKey) :
    (arc_queue_insert s a).ripupFlag = s.ripupFlag := by
  unfold arc_queue_insert; split <;> simp

@[simp] theorem arc_queue_pop_wireToArcs (s : RState) :
    (arc_queue_pop s).2.wireToArcs = s.wireToArcs := rfl

@[simp] theorem arc_queue_pop_arcToWires (s : RState) :
    (arc_queue_pop s).2.arcToWires = s.arcToWires := rfl

@[simp] theorem arc_queue_pop_wireScores (s : RState) :
    (arc_queue_pop s).2.wireScores = s.wireScores := rfl

@[simp] theorem arc_queue_pop_netScores (s : RState) :
    (arc_queue_pop s).2.netScores = s.netScores := rfl

@[simp] theorem arc_queue_pop_ctx (s : RState) :
    (arc_queue_pop s).2.ctx = s.ctx := rfl

@[simp] theorem arc_queue_pop_ripupCalls (s : RState) :
    (arc_queue_pop s).2.ripupCalls = s.ripupCalls := rfl

@[simp] theorem detachStep_wireToArcs (w : WireId) (s : RState) (a : ArcKey) :
    (detachStep w s a).wireToArcs = s.wireToArcs := by
  unfold detachStep; simp

@[simp] theorem detachStep_arcToWires (w : WireId) (s : RState) (a : ArcKey) :
    (detachStep w s a).arcToWires =
      upd s.arcToWires a (eraseAllL w (s.arcToWires a)) := by
  unfold detachStep; simp

@[simp] theorem detachStep_wireScores (w : WireId) (s : RState) (a : ArcKey) :
    (detachStep w s a).wireScores = s.wireScores := by
  unfold detachStep; simp

@[simp] theorem detachStep_netScores (w : WireId) (s : RState) (a : ArcKey) :
    (detachStep w s a).netScores = s.netScores := by
  unfold detachStep; simp

@[simp] theorem detachStep_ctx (w : WireId) (s : RState) (a : ArcKey) :
    (detachStep w s a).ctx = s.ctx := by
  unfold detachStep; simp

@[simp] theorem detachStep_ripupCalls (w : WireId) (s : RState) (a : ArcKey) :
    (detachStep w s a).ripupCalls = s.ripupCalls := by
  unfold detachStep; simp

@[simp] theorem ripupFlagSet_wireToArcs (s : RState) :
    (ripupFlagSet s).wireToArcs = s.wireToArcs := rfl

@[simp] theorem ripupFlagSet_arcToWires (s : RState) :
    (ripupFlagSet s).arcToWires = s.arcToWires := rfl

@[simp] theorem ripupFlagSet_arcQueue (s : RState) :
    (ripupFlagSet s).arcQueue = s.arcQueue := rfl

@[simp] theorem ripupFlagSet_queuedArcs (s : RState) :
    (ripupFlagSet s).queuedArcs = s.queuedArcs := rfl

@[simp] theorem ripupFlagSet_wireScores (s : RState) :
    (ripupFlagSet s).wireScores = s.wireScores := rfl

@[simp] theorem ripupFlagSet_netScores (s : RState) :
    (ripupFlagSet s).netScores = s.netScores := rfl

@[simp] theorem ripupFlagSet_ctx (s : RState) :
    (ripupFlagSet s).ctx = s.ctx := rfl

@[simp] theorem ripupFlagSet_ripupCalls (s : RState) :
    (ripupFlagSet s).ripupCalls = s.ripupCalls := rfl

theorem foldl_detachStep_wireToArcs (w : WireId) (l : List ArcKey) (s : RState) :
    (l.foldl (detachStep w) s).wireToArcs = s.wireToArcs := by
  induction l generalizing s with
  | nil => rfl
  | cons a t ih => rw [List.foldl_cons, ih]; simp

theorem foldl_detachStep_arcToWires (w : WireId) (l : List ArcKey) (s : RState)
    (a' : ArcKey) :
    (l.foldl (detachStep w) s).arcToWires a' =
      if a' ∈ l then eraseAllL w (s.arcToWires a') else s.arcToWires a' := by
  induction l generalizing s with
  | nil => simp
  | cons a t ih =>
    rw [List.foldl_cons, ih]
    by_cases h : a' = a
    · subst h
      by_cases ht : a' ∈ t <;> simp [ht, upd_apply, eraseAllL_idem]
    · by_cases ht : a' ∈ t <;> simp [ht, upd_apply, h]

theorem foldl_detachStep_wireScores (w : WireId) (l : List ArcKey) (s : RState) :
    (l.foldl (detachStep w) s).wireScores = s.wireScores := by
  induction l generalizing s with
  | nil => rfl
  | cons a t ih => rw [List.foldl_cons, ih]; simp

theorem foldl_detachStep_netScores (w : WireId) (l : List ArcKey) (s : RState) :
    (l.foldl (detachStep w) s).netScores = s.netScores := by
  induction l generalizing s with
  | nil => rfl
  | cons a t ih => rw [List.foldl_cons, ih]; simp

theorem foldl_detachStep_ctx (w : WireId) (l : List ArcKey) (s : RState) :
    (l.foldl (detachStep w) s).ctx = s.ctx := by
  induction l generalizing s with
  | nil => rfl
  | cons a t ih => rw [List.foldl_cons, ih]; simp

theorem foldl_detachStep_ripupCalls (w : WireId) (l : List ArcKey) (s : RState) :
    (l.foldl (detachStep w) s).ripupCalls = s.ripupCalls := by
  induction l generalizing s with
  | nil => rfl
  | cons a t ih => rw [List.foldl_cons, ih]; simp

theorem detachWireArcs_wireToArcs (s : RState) (w w' : WireId) :
    (detachWireArcs s w).wireToArcs w' = if w' = w then [] else s.wireToArcs w' := by
  unfold detachWireArcs
  simp only [upd_apply, foldl_detachStep_wireToArcs]

theorem detachWireArcs_arcToWires (s : RState) (w : WireId) (a' : ArcKey) :
    (detachWireArcs s w).arcToWires a' =
      if a' ∈ s.wireToArcs w then eraseAllL w (s.arcToWires a') else s.arcToWires a' := by
  unfold detachWireArcs
  simp only [foldl_detachStep_arcToWires]

theorem detachWireArcs_wireScores (s : RState) (w : WireId) :
    (detachWireArcs s w).wireScores = s.wireScores := by
  unfold detachWireArcs
  simp only [foldl_detachStep_wireScores]

theorem detachWireArcs_netScores (s : RState) (w : WireId) :
    (detachWireArcs s w).netScores = s.netScores := by
  unfold detachWireArcs
  simp only [foldl_detachStep_netScores]

theorem detachWireArcs_ctx (s : RState) (w : WireId) :
    (detachWireArcs s w).ctx = s.ctx := by
  unfold detachWireArcs
  simp only [foldl_detachStep_ctx]

theorem detachWireArcs_ripupCalls (s : RState) (w : WireId) :
    (detachWireArcs s w).ripupCalls = s.ripupCalls := by
  unfold detachWireArcs
  simp only [foldl_detachStep_ripupCalls]

theorem ripupWireCore_wireToArcs (s : RState) (w w' : WireId) :
    (ripupWireCore s w).wireToArcs w' = if w' = w then [] else s.wireToArcs w' := by
  unfold ripupWireCore
  simp [detachWireArcs_wireToArcs]

theorem ripupWireCore_arcToWires (s : RState) (w : WireId) (a' : ArcKey) :
    (ripupWireCore s w).arcToWires a' =
      if a' ∈ s.wireToArcs w then eraseAllL w (s.arcToWires a') else s.arcToWires a' := by
  unfold ripupWireCore
  simp [detachWireArcs_arcToWires]

theorem ripupWireCore_wireScores (s : RState) (w : WireId) :
    (ripupWireCore s w).wireScores =
      upd s.wireScores w (s.wireScores w + 1) := by
  unfold ripupWireCore
  simp [detachWireArcs_wireScores]

theorem ripupWireCore_netScores (s : RState) (w : WireId) :
    (ripupWireCore s w).netScores = s.netScores := by
  unfold ripupWireCore
  simp [detachWireArcs_netScores]

theorem ripupWireCore_ripupCalls (s : RState) (w : WireId) :
    (ripupWireCore s w).ripupCalls = s.ripupCalls := by
  unfold ripupWireCore
  simp [detachWireArcs_ripupCalls]

/-! ## Claim C2: preservation of the Arc Index inversion -/

theorem arcIndexInv_congr {s s' : RState} (hw : s'.wireToArcs = s.wireToArcs)
    (ha : s'.arcToWires = s.arcToWires) (h : ArcIndexInv s) : ArcIndexInv s' := by
  intro w a
  rw [hw, ha]
  exact h w a

theorem attachArc_inv {s : RState} (a : ArcKey) (w : WireId)
    (h : ArcIndexInv s) : ArcIndexInv (attachArc s a w) := by
  intro w' a'
  simp only [attachArc_wireToArcs, attachArc_arcToWires, upd_apply]
  by_cases hw : w' = w <;> by_cases ha : a' = a <;>
    simp [hw, ha, List.mem_insert_iff, h w a', h w' a, h w' a']

theorem ripupWireCore_inv {s : RState} (w : WireId)
    (h : ArcIndexInv s) : ArcIndexInv (ripupWireCore s w) := by
  intro w' a'
  rw [ripupWireCore_wireToArcs, ripupWireCore_arcToWires]
  by_cases hw : w' = w
  · subst hw
    by_cases ha : a' ∈ s.wireToArcs w'
    · simp [ha, mem_eraseAllL]
    · simp [ha, ← h w' a']
  · by_cases ha : a' ∈ s.wireToArcs w
    · simp [hw, ha, mem_eraseAllL, h w' a']
    · simp [hw, ha, h w' a']

theorem foldl_ripupWireCore_inv (l : Bindings) {s : RState}
    (h : ArcIndexInv s) :
    ArcIndexInv (l.foldl (fun s e => ripupWireCore s e.1) s) := by
  induction l generalizing s with
  | nil => exact h
  | cons e t ih => exact ih (ripupWireCore_inv e.1 h)

theorem ripup_net_inv {s : RState} (n : NetId)
    (h : ArcIndexInv s) : ArcIndexInv (ripup_net s n) := by
  unfold ripup_net
  exact arcIndexInv_congr rfl rfl
    (foldl_ripupWireCore_inv _ (arcIndexInv_congr rfl rfl h))

theorem ripupDisp_inv {s : RState} (w : WireId) (cnet : Option NetId)
    (h : ArcIndexInv s) : ArcIndexInv (ripupDisp s w cnet) := by
  unfold ripupDisp
  split
  · cases cnet with
    | none => exact h
    | some n => exact ripup_net_inv _ h
  · exact ripupWireCore_inv _ h

theorem ripup_wire_inv {s : RState} (w : WireId)
    (h : ArcIndexInv s) : ArcIndexInv (ripup_wire s w) := by
  unfold ripup_wire
  exact arcIndexInv_congr rfl rfl
    (ripupDisp_inv _ _ (arcIndexInv_congr rfl rfl h))

theorem ripup_pip_inv {s : RState} (p : PipId)
    (h : ArcIndexInv s) : ArcIndexInv (ripup_pip s p) := by
  unfold ripup_pip
  exact arcIndexInv_congr rfl rfl
    (ripupDisp_inv _ _ (arcIndexInv_congr rfl rfl h))

@[simp] theorem prepStep_wireToArcs (arc : ArcKey) (s : RState) (w : WireId) :
    (prepStep arc s w).wireToArcs =
      upd s.wireToArcs w (eraseAllL arc (s.wireToArcs w)) := by
  rw [prepStep_eq]; split <;> simp

@[simp] theorem prepStep_arcToWires (arc : ArcKey) (s : RState) (w : WireId) :
    (prepStep arc s w).arcToWires = s.arcToWires := by
  rw [prepStep_eq]; split <;> simp

@[simp] theorem prepStep_arcQueue (arc : ArcKey) (s : RState) (w : WireId) :
    (prepStep arc s w).arcQueue = s.arcQueue := by
  rw [prepStep_eq]; split <;> simp

@[simp] theorem prepStep_queuedArcs (arc : ArcKey) (s : RState) (w : WireId) :
    (prepStep arc s w).queuedArcs = s.queuedArcs := by
  rw [prepStep_eq]; split <;> simp

@[simp] theorem prepStep_wireScores (arc : ArcKey) (s : RState) (w : WireId) :
    (prepStep arc s w).wireScores = s.wireScores := by
  rw [prepStep_eq]; split <;> simp

@[simp] theorem prepStep_netScores (arc : ArcKey) (s : RState) (w : WireId) :
    (prepStep arc s w).netScores = s.netScores := by
  rw [prepStep_eq]; split <;> simp

@[simp] theorem prepStep_ripupCalls (arc : ArcKey) (s : RState) (w : WireId) :
    (prepStep arc s w).ripupCalls = s.ripupCalls := by
  rw [prepStep_eq]; split <;> simp

@[simp] theorem prepStep_arch (arc : ArcKey) (s : RState) (w : WireId) :
    (prepStep arc s w).ctx.arch = s.ctx.arch := by
  rw [prepStep_eq]; split <;> rfl

@[simp] theorem prepStep_rngCounter (arc : ArcKey) (s : RState) (w : WireId) :
    (prepStep arc s w).ctx.rngCounter = s.ctx.rngCounter := by
  rw [prepStep_eq]; split <;> rfl

theorem prepStep_events (arc : ArcKey) (s : RState) (w : WireId) :
    (prepStep arc s w).ctx.events =
      if eraseAllL arc (s.wireToArcs w) = [] then Event.unbind w :: s.ctx.events
      else s.ctx.events := by
  rw [prepStep_eq]; split <;> simp_all

theorem foldl_prepStep_arcToWires (arc : ArcKey) (l : List WireId) (s : RState) :
    (l.foldl (prepStep arc) s).arcToWires = s.arcToWires := by
  induction l generalizing s with
  | nil => rfl
  | cons w t ih => rw [List.foldl_cons, ih]; simp

theorem foldl_prepStep_wireToArcs (arc : ArcKey) (l : List WireId) (s : RState)
    (w' : WireId) :
    (l.foldl (prepStep arc) s).wireToArcs w' =
      if w' ∈ l then eraseAllL arc (s.wireToArcs w') else s.wireToArcs w' := by
  induction l generalizing s with
  | nil => simp
  | cons w t ih =>
    rw [List.foldl_cons, ih]
    by_cases h : w' = w
    · subst h
      by_cases ht : w' ∈ t <;> simp [ht, upd_apply, eraseAllL_idem]
    · by_cases ht : w' ∈ t <;> simp [ht, upd_apply, h]

theorem foldl_prepStep_arcQueue (arc : ArcKey) (l : List WireId) (s : RState) :
    (l.foldl (prepStep arc) s).arcQueue = s.arcQueue := by
  induction l generalizing s with
  | nil => rfl
  | cons w t ih => rw [List.foldl_cons, ih]; simp

theorem foldl_prepStep_queuedArcs (arc : ArcKey) (l : List WireId) (s : RState) :
    (l.foldl (prepStep arc) s).queuedArcs = s.queuedArcs := by
  induction l generalizing s with
  | nil => rfl
  | cons w t ih => rw [List.foldl_cons, ih]; simp

theorem foldl_prepStep_wireScores (arc : ArcKey) (l : List WireId) (s : RState) :
    (l.foldl (prepStep arc) s).wireScores = s.wireScores := by
  induction l generalizing s with
  | nil => rfl
  | cons w t ih => rw [List.foldl_cons, ih]; simp

theorem foldl_prepStep_netScores (arc : ArcKey) (l : List WireId) (s : RState) :
    (l.foldl (prepStep arc) s).netScores = s.netScores := by
  induction l generalizing s with
  | nil => rfl
  | cons w t ih => rw [List.foldl_cons, ih]; simp

theorem foldl_prepStep_ripupCalls (arc : ArcKey) (l : List WireId) (s : RState) :
    (l.foldl (prepStep arc) s).ripupCalls = s.ripupCalls := by
  induction l generalizing s with
  | nil => rfl
  | cons w t ih => rw [List.foldl_cons, ih]; simp

theorem foldl_prepStep_arch (arc : ArcKey) (l : List WireId) (s : RState) :
    (l.foldl (prepStep arc) s).ctx.arch = s.ctx.arch := by
  induction l generalizing s with
  | nil => rfl
  | cons w t ih => rw [List.foldl_cons, ih]; simp

theorem foldl_prepStep_rngCounter (arc : ArcKey) (l : List WireId) (s : RState) :
    (l.foldl (prepStep arc) s).ctx.rngCounter = s.ctx.rngCounter := by
  induction l generalizing s with
  | nil => rfl
  | cons w t ih => rw [List.foldl_cons, ih]; simp

theorem prepArc_arcToWires (s : RState) (arc : ArcKey) :
    (prepArc s arc).arcToWires = upd s.arcToWires arc [] := by
  rw [prepArc_eq, foldl_prepStep_arcToWires]

theorem prepArc_wireToArcs (s : RState) (arc : ArcKey) (w' : WireId) :
    (prepArc s arc).wireToArcs w' =
      if w' ∈ s.arcToWires arc then eraseAllL arc (s.wireToArcs w')
      else s.wireToArcs w' := by
  rw [prepArc_eq, foldl_prepStep_wireToArcs]

theorem prepArc_arcQueue (s : RState) (arc : ArcKey) :
    (prepArc s arc).arcQueue = s.arcQueue := by
  rw [prepArc_eq, foldl_prepStep_arcQueue]

theorem prepArc_queuedArcs (s : RState) (arc : ArcKey) :
    (prepArc s arc).queuedArcs = s.queuedArcs := by
  rw [prepArc_eq, foldl_prepStep_queuedArcs]

theorem prepArc_wireScores (s : RState) (arc : ArcKey) :
    (prepArc s arc).wireScores = s.wireScores := by
  rw [prepArc_eq, foldl_prepStep_wireScores]

theorem prepArc_netScores (s : RState) (arc : ArcKey) :
    (prepArc s arc).netScores = s.netScores := by
  rw [prepArc_eq, foldl_prepStep_netScores]

theorem prepArc_ripupCalls (s : RState) (arc : ArcKey) :
    (prepArc s arc).ripupCalls = s.ripupCalls := by
  rw [prepArc_eq, foldl_prepStep_ripupCalls]

theorem prepArc_arch (s : RState) (arc : ArcKey) :
    (prepArc s arc).ctx.arch = s.ctx.arch := by
  rw [prepArc_eq, foldl_prepStep_arch]

theorem prepArc_rngCounter (s : RState) (arc : ArcKey) :
    (prepArc s arc).ctx.rngCounter = s.ctx.rngCounter := by
  rw [prepArc_eq, foldl_prepStep_rngCounter]

theorem prepArc_inv {s : RState} (arc : ArcKey)
    (h : ArcIndexInv s) : ArcIndexInv (prepArc s arc) := by
  intro w' a'
  rw [prepArc_wireToArcs, prepArc_arcToWires, upd_apply]
  by_cases ha : a' = arc
  · subst ha
    by_cases hw : w' ∈ s.arcToWires a'
    · simp [hw, mem_eraseAllL]
    · simp [hw, h w' a']
  · by_cases hw : w' ∈ s.arcToWires arc
    · simp [hw, ha, mem_eraseAllL, h w' a']
    · simp [hw, ha, h w' a']

theorem commitRipupWire_inv {s : RState} (arch : Arch) (cursor : WireId)
    (h : ArcIndexInv s) : ArcIndexInv (commitRipupWire arch s cursor) := by
  unfold commitRipupWire
  split
  · exact ripup_wire_inv _ h
  · exact h

theorem commitRipupPip_inv {s : RState} (arch : Arch) (pip : PipId)
    (h : ArcIndexInv s) : ArcIndexInv (commitRipupPip arch s pip) := by
  unfold commitRipupPip
  split
  · exact ripup_pip_inv _ h
  · exact h

theorem commitBindDo_inv {s : RState} (pip : PipId) (cursor : WireId) (netId : NetId)
    (h : ArcIndexInv s) : ArcIndexInv (commitBindDo s pip cursor netId) := by
  unfold commitBindDo
  split <;> exact arcIndexInv_congr rfl rfl h

theorem commitBindPhase_inv {s : RState} (arch : Arch) (netId : NetId)
    (cursor : WireId) (pip : PipId)
    (h : ArcIndexInv s) : ArcIndexInv (commitBindPhase arch s netId cursor pip) := by
  unfold commitBindPhase
  split
  · exact commitBindDo_inv _ _ _ (commitRipupPip_inv _ _ (commitRipupWire_inv _ _ h))
  · exact h

theorem commitLoop_inv (arch : Arch) (fuel : Nat) {s : RState} (arc : ArcKey)
    (netId : NetId) (srcWire : WireId) (visited : WireId → Option QueuedWire)
    (cursor : WireId)
    (h : ArcIndexInv s) :
    ArcIndexInv (commitLoop arch fuel s arc netId srcWire visited cursor) := by
  induction fuel generalizing s cursor with
  | zero => exact h
  | succ f ih =>
    rw [commitLoop]
    split
    · exact attachArc_inv _ _ (commitBindPhase_inv _ _ _ _ h)
    · exact ih _ (attachArc_inv _ _ (commitBindPhase_inv _ _ _ _ h))

theorem routeWrap_inv {s3 : RState} (h : ArcIndexInv s3) :
    ArcIndexInv (routeWrap s3).2 := by
  unfold routeWrap
  split <;> exact arcIndexInv_congr rfl rfl h

theorem routeCommit_inv {s1 : RState} (arc : ArcKey) (ast : AState)
    (h : ArcIndexInv s1) : ArcIndexInv (routeCommit s1 arc ast).2 := by
  unfold routeCommit
  split
  · exact arcIndexInv_congr rfl rfl h
  · exact routeWrap_inv (commitLoop_inv _ _ _ _ _ _ _ (arcIndexInv_congr rfl rfl h))

theorem route_arc_inv {s : RState} (cfg : Cfg) (arc : ArcKey) (ripup : Bool)
    (h : ArcIndexInv s) : ArcIndexInv (route_arc s cfg arc ripup).2 := by
  unfold route_arc
  exact routeCommit_inv _ _ (prepArc_inv _ (arcIndexInv_congr rfl rfl h))

theorem setupAttachAll_inv {rs : RState} (arc : ArcKey) (ws : List WireId)
    (h : ArcIndexInv rs) : ArcIndexInv (setupAttachAll arc rs ws) := by
  unfold setupAttachAll
  induction ws generalizing rs with
  | nil => exact h
  | cons w t ih => exact ih (attachArc_inv _ _ h)

theorem arc_queue_insert2_inv {s : RState} (a : ArcKey) (sw dw : WireId)
    (h : ArcIndexInv s) : ArcIndexInv (arc_queue_insert2 s a sw dw) :=
  arcIndexInv_congr (arc_queue_insert2_wireToArcs s a sw dw)
    (arc_queue_insert2_arcToWires s a sw dw) h

theorem setupUserRoute_inv {rs : RState} (arch : Arch) (n : NetId)
    (srcW dstW : WireId) (arc : ArcKey)
    (h : ArcIndexInv rs) : ArcIndexInv (setupUserRoute arch n srcW dstW arc rs) := by
  unfold setupUserRoute
  split
  · exact arc_queue_insert2_inv _ _ _ h
  · split
    · exact setupAttachAll_inv _ _ h
    · exact arc_queue_insert2_inv _ _ _ (setupAttachAll_inv _ _ h)

theorem setupUser_inv {st : SetupSt} (arch : Arch) (n : NetId) (srcW : WireId)
    (i : Nat) (h : ArcIndexInv st.rs) : ArcIndexInv (setupUser arch n srcW st i).rs := by
  unfold setupUser
  split
  · exact h
  · split
    · exact h
    · split
      · split
        · exact h
        · exact h
      · split
        · exact h
        · exact setupUserRoute_inv _ _ _ _ _ h

theorem foldl_setupUser_inv (arch : Arch) (n : NetId) (srcW : WireId)
    (l : List Nat) {st : SetupSt} (h : ArcIndexInv st.rs) :
    ArcIndexInv (l.foldl (setupUser arch n srcW) st).rs := by
  induction l generalizing st with
  | nil => exact h
  | cons i t ih => exact ih (setupUser_inv arch n srcW i h)

theorem foldl_unbind_inv (l : Bindings) {rs : RState} (h : ArcIndexInv rs) :
    ArcIndexInv (l.foldl (fun s e => unbindOp s e.1) rs) := by
  induction l generalizing rs with
  | nil => exact h
  | cons e t ih => exact ih (arcIndexInv_congr rfl rfl h)

theorem setupNetFinish_inv {st : SetupSt} (n : NetId) (srcW : WireId)
    (h : ArcIndexInv st.rs) : ArcIndexInv (setupNetFinish n srcW st).rs := by
  unfold setupNetFinish
  split
  · exact h
  · exact foldl_unbind_inv _ h

theorem setupNet_inv {st : SetupSt} (arch : Arch) (n : NetId)
    (h : ArcIndexInv st.rs) : ArcIndexInv (setupNet arch st n).rs := by
  unfold setupNet
  split
  · exact h
  · split
    · exact h
    · split
      · exact h
      · split
        · exact h
        · split
          · exact h
          · exact setupNetFinish_inv _ _ (foldl_setupUser_inv _ _ _ _ h)

theorem initState_inv (arch : Arch) (b0 : Bindings) : ArcIndexInv (initState arch b0) := by
  intro w a
  simp [initState]

theorem setup_inv (arch : Arch) (b0 : Bindings) : ArcIndexInv (setup arch b0).1 := by
  unfold setup
  have : ∀ (l : List NetId) (st : SetupSt), ArcIndexInv st.rs →
      ArcIndexInv (l.foldl (setupNet arch) st).rs := by
    intro l
    induction l with
    | nil => exact fun st h => h
    | cons n t ih => exact fun st h => ih _ (setupNet_inv arch n h)
  exact this _ _ (initState_inv arch b0)

/-- C2.  The Arc Index maps are mutual inverses after every public operation
of the router: `setup` establishes the invariant from scratch, and
`route_arc`, `ripup_net`, `ripup_wire` and `ripup_pip` preserve it. -/
theorem c2_arc_index_mutual_inverse :
    (∀ (arch : Arch) (b0 : Bindings), ArcIndexInv (setup arch b0).1) ∧
    (∀ (s : RState) (cfg : Cfg) (arc : ArcKey) (ripup : Bool),
        ArcIndexInv s → ArcIndexInv (route_arc s cfg arc ripup).2) ∧
    (∀ (s : RState) (n : NetId), ArcIndexInv s → ArcIndexInv (ripup_net s n)) ∧
    (∀ (s : RState) (w : WireId), ArcIndexInv s → ArcIndexInv (ripup_wire s w)) ∧
    (∀ (s : RState) (p : PipId), ArcIndexInv s → ArcIndexInv (ripup_pip s p)) :=
  ⟨setup_inv,
   fun _ cfg arc ripup h => route_arc_inv cfg arc ripup h,
   fun _ n h => ripup_net_inv n h,
   fun _ w h => ripup_wire_inv w h,
   fun _ p h => ripup_pip_inv p h⟩

/-- C2 witness: the conjunction applied at the concrete design `archC` and
state produced by its setup. -/
theorem c2_arc_index_mutual_inverse_witness :
    ArcIndexInv (setup archC bindOk).1 ∧
    ArcIndexInv (route_arc (setup archC bindOk).1 cfg0 ⟨0, 0⟩ true).2 ∧
    ArcIndexInv (ripup_net (setup archC bindOk).1 0) ∧
    ArcIndexInv (ripup_wire (setup archC bindOk).1 2) ∧
    ArcIndexInv (ripup_pip (setup archC bindOk).1 5) :=
  ⟨c2_arc_index_mutual_inverse.1 archC bindOk,
   c2_arc_index_mutual_inverse.2.1 _ cfg0 ⟨0, 0⟩ true
     (c2_arc_index_mutual_inverse.1 archC bindOk),
   c2_arc_index_mutual_inverse.2.2.1 _ 0 (c2_arc_index_mutual_inverse.1 archC bindOk),
   c2_arc_index_mutual_inverse.2.2.2.1 _ 2 (c2_arc_index_mutual_inverse.1 archC bindOk),
   c2_arc_index_mutual_inverse.2.2.2.2 _ 5 (c2_arc_index_mutual_inverse.1 archC bindOk)⟩

/-! ## Claim C8: score monotonicity -/

theorem ripupWireCore_wireScores_le (s : RState) (w w' : WireId) :
    s.wireScores w' ≤ (ripupWireCore s w).wireScores w' := by
  rw [ripupWireCore_wireScores, upd_apply]
  split
  · simp_all
  · exact le_refl _

theorem foldl_ripupWireCore_wireScores_le (l : Bindings) (s : RState) (w' : WireId) :
    s.wireScores w' ≤ (l.foldl (fun s e => ripupWireCore s e.1) s).wireScores w' := by
  induction l generalizing s with
  | nil => exact le_refl _
  | cons e t ih =>
    exact le_trans (ripupWireCore_wireScores_le s e.1 w') (ih _)

theorem foldl_ripupWireCore_netScores (l : Bindings) (s : RState) :
    (l.foldl (fun s e => ripupWireCore s e.1) s).netScores = s.netScores := by
  induction l generalizing s with
  | nil => rfl
  | cons e t ih => rw [List.foldl_cons, ih, ripupWireCore_netScores]

theorem ripup_net_netScores (s : RState) (n : NetId) :
    (ripup_net s n).netScores = upd s.netScores n (s.netScores n + 1) := by
  unfold ripup_net
  rw [ripupFlagSet_netScores, foldl_ripupWireCore_netScores]

theorem ripup_net_wireScores_le (s : RState) (n : NetId) (w' : WireId) :
    s.wireScores w' ≤ (ripup_net s n).wireScores w' := by
  unfold ripup_net
  rw [ripupFlagSet_wireScores]
  exact foldl_ripupWireCore_wireScores_le (netWires s.ctx.bindings n)
    { s with ripupCalls := s.ripupCalls + 1,
             netScores := upd s.netScores n (s.netScores n + 1) } w'

theorem ripup_net_netScores_le (s : RState) (n : NetId) (n' : NetId) :
    s.netScores n' ≤ (ripup_net s n).netScores n' := by
  rw [ripup_net_netScores, upd_apply]
  split
  · simp_all
  · exact le_refl _

theorem ripupDisp_wireScores_le (s : RState) (w : WireId) (cnet : Option NetId)
    (w' : WireId) : s.wireScores w' ≤ (ripupDisp s w cnet).wireScores w' := by
  unfold ripupDisp
  split
  · cases cnet with
    | none => exact le_refl _
    | some n => exact ripup_net_wireScores_le _ _ _
  · exact ripupWireCore_wireScores_le _ _ _

theorem ripupDisp_netScores_le (s : RState) (w : WireId) (cnet : Option NetId)
    (n' : NetId) : s.netScores n' ≤ (ripupDisp s w cnet).netScores n' := by
  unfold ripupDisp
  split
  · cases cnet with
    | none => exact le_refl _
    | some n => exact ripup_net_netScores_le _ _ _
  · rw [ripupWireCore_netScores]

theorem ripup_wire_wireScores_le (s : RState) (w : WireId) (w' : WireId) :
    s.wireScores w' ≤ (ripup_wire s w).wireScores w' := by
  unfold ripup_wire
  rw [ripupFlagSet_wireScores]
  exact ripupDisp_wireScores_le { s with ripupCalls := s.ripupCalls + 1 }
    (s.ctx.arch.conflictingWireWire s.ctx.bindings w)
    (s.ctx.arch.conflictingWireNet s.ctx.bindings w) w'

theorem ripup_wire_netScores_le (s : RState) (w : WireId) (n' : NetId) :
    s.netScores n' ≤ (ripup_wire s w).netScores n' := by
  unfold ripup_wire
  rw [ripupFlagSet_netScores]
  exact ripupDisp_netScores_le { s with ripupCalls := s.ripupCalls + 1 }
    (s.ctx.arch.conflictingWireWire s.ctx.bindings w)
    (s.ctx.arch.conflictingWireNet s.ctx.bindings w) n'

theorem ripup_pip_wireScores_le (s : RState) (p : PipId) (w' : WireId) :
    s.wireScores w' ≤ (ripup_pip s p).wireScores w' := by
  unfold ripup_pip
  rw [ripupFlagSet_wireScores]
  exact ripupDisp_wireScores_le { s with ripupCalls := s.ripupCalls + 1 }
    (s.ctx.arch.conflictingPipWire s.ctx.bindings p)
    (s.ctx.arch.conflictingPipNet s.ctx.bindings p) w'

theorem ripup_pip_netScores_le (s : RState) (p : PipId) (n' : NetId) :
    s.netScores n' ≤ (ripup_pip s p).netScores n' := by
  unfold ripup_pip
  rw [ripupFlagSet_netScores]
  exact ripupDisp_netScores_le { s with ripupCalls := s.ripupCalls + 1 }
    (s.ctx.arch.conflictingPipWire s.ctx.bindings p)
    (s.ctx.arch.conflictingPipNet s.ctx.bindings p) n'

theorem commitBindPhase_wireScores_le (arch : Arch) (s : RState) (netId : NetId)
    (cursor : WireId) (pip : PipId) (w' : WireId) :
    s.wireScores w' ≤ (commitBindPhase arch s netId cursor pip).wireScores w' := by
  unfold commitBindPhase commitBindDo commitRipupPip commitRipupWire
  split
  · split <;> simp only [bindWireOp_wireScores, bindPipOp_wireScores] <;>
      split <;> split <;>
      first
        | exact le_refl _
        | exact ripup_pip_wireScores_le _ _ _
        | exact ripup_wire_wireScores_le _ _ _
        | exact le_trans (ripup_wire_wireScores_le _ _ _) (ripup_pip_wireScores_le _ _ _)
  · exact le_refl _

theorem commitBindPhase_netScores_le (arch : Arch) (s : RState) (netId : NetId)
    (cursor : WireId) (pip : PipId) (n' : NetId) :
    s.netScores n' ≤ (commitBindPhase arch s netId cursor pip).netScores n' := by
  unfold commitBindPhase commitBindDo commitRipupPip commitRipupWire
  split
  · split <;> simp only [bindWireOp_netScores, bindPipOp_netScores] <;>
      split <;> split <;>
      first
        | exact le_refl _
        | exact ripup_pip_netScores_le _ _ _
        | exact ripup_wire_netScores_le _ _ _
        | exact le_trans (ripup_wire_netScores_le _ _ _) (ripup_pip_netScores_le _ _ _)
  · exact le_refl _

theorem commitLoop_wireScores_le (arch : Arch) (fuel : Nat) (s : RState)
    (arc : ArcKey) (netId : NetId) (srcWire : WireId)
    (visited : WireId → Option QueuedWire) (cursor : WireId) (w' : WireId) :
    s.wireScores w' ≤
      (commitLoop arch fuel s arc netId srcWire visited cursor).wireScores w' := by
  induction fuel generalizing s cursor with
  | zero => exact le_refl _
  | succ f ih =>
    rw [commitLoop]
    split
    · simp only [attachArc_wireScores]
      exact commitBindPhase_wireScores_le _ _ _ _ _ _
    · refine le_trans ?_ (ih _ _)
      simp only [attachArc_wireScores]
      exact commitBindPhase_wireScores_le _ _ _ _ _ _

theorem commitLoop_netScores_le (arch : Arch) (fuel : Nat) (s : RState)
    (arc : ArcKey) (netId : NetId) (srcWire : WireId)
    (visited : WireId → Option QueuedWire) (cursor : WireId) (n' : NetId) :
    s.netScores n' ≤
      (commitLoop arch fuel s arc netId srcWire visited cursor).netScores n' := by
  induction fuel generalizing s cursor with
  | zero => exact le_refl _
  | succ f ih =>
    rw [commitLoop]
    split
    · simp only [attachArc_netScores]
      exact commitBindPhase_netScores_le _ _ _ _ _ _
    · refine le_trans ?_ (ih _ _)
      simp only [attachArc_netScores]
      exact commitBindPhase_netScores_le _ _ _ _ _ _

theorem routeWrap_snd_wireScores (s3 : RState) :
    (routeWrap s3).2.wireScores = s3.wireScores := by
  unfold routeWrap
  split <;> rfl

theorem routeWrap_snd_netScores (s3 : RState) :
    (routeWrap s3).2.netScores = s3.netScores := by
  unfold routeWrap
  split <;> rfl

theorem routeCommit_wireScores_le (s1 : RState) (arc : ArcKey) (ast : AState)
    (w' : WireId) : s1.wireScores w' ≤ (routeCommit s1 arc ast).2.wireScores w' := by
  unfold routeCommit
  split
  · exact le_refl _
  · rw [routeWrap_snd_wireScores]
    exact commitLoop_wireScores_le s1.ctx.arch intMaxN (rngSet s1 ast.rngCtr) arc
      arc.net (s1.ctx.arch.sourceWire arc.net) ast.visited
      (s1.ctx.arch.sinkWire arc.net arc.userIdx) w'

theorem routeCommit_netScores_le (s1 : RState) (arc : ArcKey) (ast : AState)
    (n' : NetId) : s1.netScores n' ≤ (routeCommit s1 arc ast).2.netScores n' := by
  unfold routeCommit
  split
  · exact le_refl _
  · rw [routeWrap_snd_netScores]
    exact commitLoop_netScores_le s1.ctx.arch intMaxN (rngSet s1 ast.rngCtr) arc
      arc.net (s1.ctx.arch.sourceWire arc.net) ast.visited
      (s1.ctx.arch.sinkWire arc.net arc.userIdx) n'

theorem route_arc_wireScores_le (s : RState) (cfg : Cfg) (arc : ArcKey)
    (ripup : Bool) (w' : WireId) :
    s.wireScores w' ≤ (route_arc s cfg arc ripup).2.wireScores w' := by
  unfold route_arc
  calc s.wireScores w'
      = (prepArc { s with ripupFlag := false } arc).wireScores w' := by
        rw [prepArc_wireScores]
    _ ≤ _ := routeCommit_wireScores_le _ _ _ w'

theorem route_arc_netScores_le (s : RState) (cfg : Cfg) (arc : ArcKey)
    (ripup : Bool) (n' : NetId) :
    s.netScores n' ≤ (route_arc s cfg arc ripup).2.netScores n' := by
  unfold route_arc
  calc s.netScores n'
      = (prepArc { s with ripupFlag := false } arc).netScores n' := by
        rw [prepArc_netScores]
    _ ≤ _ := routeCommit_netScores_le _ _ _ n'

theorem routerLoop_wireScores_le (cfg : Cfg) (fuel : Nat) (s : RState) (w' : WireId) :
    s.wireScores w' ≤ (routerLoop cfg fuel s).2.2.wireScores w' := by
  induction fuel generalizing s with
  | zero => exact le_refl _
  | succ f ih =>
    rw [routerLoop]
    split
    · exact le_refl _
    · split
      · exact le_trans
          (route_arc_wireScores_le (arc_queue_pop s).2 cfg (arc_queue_pop s).1 true w')
          (ih _)
      · exact route_arc_wireScores_le (arc_queue_pop s).2 cfg (arc_queue_pop s).1 true w'

theorem routerLoop_netScores_le (cfg : Cfg) (fuel : Nat) (s : RState) (n' : NetId) :
    s.netScores n' ≤ (routerLoop cfg fuel s).2.2.netScores n' := by
  induction fuel generalizing s with
  | zero => exact le_refl _
  | succ f ih =>
    rw [routerLoop]
    split
    · exact le_refl _
    · split
      · exact le_trans
          (route_arc_netScores_le (arc_queue_pop s).2 cfg (arc_queue_pop s).1 true n')
          (ih _)
      · exact route_arc_netScores_le (arc_queue_pop s).2 cfg (arc_queue_pop s).1 true n'

theorem setupAttachAll_wireScores (arc : ArcKey) (rs : RState) (ws : List WireId) :
    (setupAttachAll arc rs ws).wireScores = rs.wireScores := by
  unfold setupAttachAll
  induction ws generalizing rs with
  | nil => rfl
  | cons w t ih => rw [List.foldl_cons, ih]; simp

theorem setupAttachAll_netScores (arc : ArcKey) (rs : RState) (ws : List WireId) :
    (setupAttachAll arc rs ws).netScores = rs.netScores := by
  unfold setupAttachAll
  induction ws generalizing rs with
  | nil => rfl
  | cons w t ih => rw [List.foldl_cons, ih]; simp

theorem setupUserRoute_wireScores (arch : Arch) (n : NetId) (srcW dstW : WireId)
    (arc : ArcKey) (rs : RState) :
    (setupUserRoute arch n srcW dstW arc rs).wireScores = rs.wireScores := by
  unfold setupUserRoute
  split
  · simp
  · split
    · rw [setupAttachAll_wireScores]
    · rw [arc_queue_insert2_wireScores, setupAttachAll_wireScores]

theorem setupUserRoute_netScores (arch : Arch) (n : NetId) (srcW dstW : WireId)
    (arc : ArcKey) (rs : RState) :
    (setupUserRoute arch n srcW dstW arc rs).netScores = rs.netScores := by
  unfold setupUserRoute
  split
  · simp
  · split
    · rw [setupAttachAll_netScores]
    · rw [arc_queue_insert2_netScores, setupAttachAll_netScores]

theorem setupUser_scores (arch : Arch) (n : NetId) (srcW : WireId) (st : SetupSt)
    (i : Nat) :
    (setupUser arch n srcW st i).rs.wireScores = st.rs.wireScores ∧
    (setupUser arch n srcW st i).rs.netScores = st.rs.netScores := by
  unfold setupUser
  split
  · exact ⟨rfl, rfl⟩
  · split
    · exact ⟨rfl, rfl⟩
    · split
      · split
        · exact ⟨rfl, rfl⟩
        · exact ⟨rfl, rfl⟩
      · split
        · exact ⟨rfl, rfl⟩
        · exact ⟨setupUserRoute_wireScores _ _ _ _ _ _,
                 setupUserRoute_netScores _ _ _ _ _ _⟩

theorem foldl_setupUser_scores (arch : Arch) (n : NetId) (srcW : WireId)
    (l : List Nat) (st : SetupSt) :
    (l.foldl (setupUser arch n srcW) st).rs.wireScores = st.rs.wireScores ∧
    (l.foldl (setupUser arch n srcW) st).rs.netScores = st.rs.netScores := by
  induction l generalizing st with
  | nil => exact ⟨rfl, rfl⟩
  | cons i t ih =>
    rw [List.foldl_cons]
    refine ⟨?_, ?_⟩
    · rw [(ih _).1, (setupUser_scores arch n srcW st i).1]
    · rw [(ih _).2, (setupUser_scores arch n srcW st i).2]

theorem foldl_unbind_scores (l : Bindings) (rs : RState) :
    (l.foldl (fun s e => unbindOp s e.1) rs).wireScores = rs.wireScores ∧
    (l.foldl (fun s e => unbindOp s e.1) rs).netScores = rs.netScores := by
  induction l generalizing rs with
  | nil => exact ⟨rfl, rfl⟩
  | cons e t ih =>
    rw [List.foldl_cons]
    exact ⟨(ih _).1, (ih _).2⟩

theorem setupNet_scores (arch : Arch) (st : SetupSt) (n : NetId) :
    (setupNet arch st n).rs.wireScores = st.rs.wireScores ∧
    (setupNet arch st n).rs.netScores = st.rs.netScores := by
  unfold setupNet setupNetFinish
  split
  · exact ⟨rfl, rfl⟩
  · split
    · exact ⟨rfl, rfl⟩
    · split
      · exact ⟨rfl, rfl⟩
      · split
        · exact ⟨rfl, rfl⟩
        · split
          · exact ⟨rfl, rfl⟩
          · split
            · exact foldl_setupUser_scores _ _ _ _ _
            · constructor
              · rw [(foldl_unbind_scores _ _).1]
                exact (foldl_setupUser_scores _ _ _ _ _).1
              · rw [(foldl_unbind_scores _ _).2]
                exact (foldl_setupUser_scores _ _ _ _ _).2

theorem setup_scores_zero (arch : Arch) (b0 : Bindings) :
    (setup arch b0).1.wireScores = (fun _ => 0) ∧
    (setup arch b0).1.netScores = (fun _ => 0) := by
  unfold setup
  have : ∀ (l : List NetId) (st : SetupSt),
      (l.foldl (setupNet arch) st).rs.wireScores = st.rs.wireScores ∧
      (l.foldl (setupNet arch) st).rs.netScores = st.rs.netScores := by
    intro l
    induction l with
    | nil => exact fun st => ⟨rfl, rfl⟩
    | cons n t ih =>
      intro st
      rw [List.foldl_cons]
      refine ⟨?_, ?_⟩
      · rw [(ih _).1, (setupNet_scores arch st n).1]
      · rw [(ih _).2, (setupNet_scores arch st n).2]
  exact ⟨(this _ _).1, (this _ _).2⟩

/-- C8.  During one routing invocation the Score Book counters never
decrease and are written only by the rip-up engine, one increment at a time:
setup leaves both maps at zero, the work-queue operations do not touch them,
the shared eviction core bumps exactly the evicted wire's score by one,
`ripup_net` bumps exactly the conflicting net's score by one, and every
public operation (the three rip-up entry points, `route_arc` and the outer
loop) is pointwise monotone on both maps. -/
theorem c8_scores_monotone :
    (∀ (arch : Arch) (b0 : Bindings),
        (setup arch b0).1.wireScores = (fun _ => 0) ∧
        (setup arch b0).1.netScores = (fun _ => 0)) ∧
    (∀ (s : RState) (a : ArcKey),
        (arc_queue_insert s a).wireScores = s.wireScores ∧
        (arc_queue_insert s a).netScores = s.netScores) ∧
    (∀ s : RState, (arc_queue_pop s).2.wireScores = s.wireScores ∧
        (arc_queue_pop s).2.netScores = s.netScores) ∧
    (∀ (s : RState) (w : WireId),
        (ripupWireCore s w).wireScores = upd s.wireScores w (s.wireScores w + 1) ∧
        (ripupWireCore s w).netScores = s.netScores) ∧
    (∀ (s : RState) (n : NetId),
        (ripup_net s n).netScores = upd s.netScores n (s.netScores n + 1)) ∧
    (∀ (s : RState) (n : NetId) (w' : WireId) (n' : NetId),
        s.wireScores w' ≤ (ripup_net s n).wireScores w' ∧
        s.netScores n' ≤ (ripup_net s n).netScores n') ∧
    (∀ (s : RState) (w : WireId) (w' : WireId) (n' : NetId),
        s.wireScores w' ≤ (ripup_wire s w).wireScores w' ∧
        s.netScores n' ≤ (ripup_wire s w).netScores n') ∧
    (∀ (s : RState) (p : PipId) (w' : WireId) (n' : NetId),
        s.wireScores w' ≤ (ripup_pip s p).wireScores w' ∧
        s.netScores n' ≤ (ripup_pip s p).netScores n') ∧
    (∀ (s : RState) (cfg : Cfg) (arc : ArcKey) (ripup : Bool) (w' : WireId) (n' : NetId),
        s.wireScores w' ≤ (route_arc s cfg arc ripup).2.wireScores w' ∧
        s.netScores n' ≤ (route_arc s cfg arc ripup).2.netScores n') ∧
    (∀ (cfg : Cfg) (fuel : Nat) (s : RState) (w' : WireId) (n' : NetId),
        s.wireScores w' ≤ (routerLoop cfg fuel s).2.2.wireScores w' ∧
        s.netScores n' ≤ (routerLoop cfg fuel s).2.2.netScores n') :=
  ⟨setup_scores_zero,
   fun s a => ⟨arc_queue_insert_wireScores s a, arc_queue_insert_netScores s a⟩,
   fun _ => ⟨rfl, rfl⟩,
   fun s w => ⟨ripupWireCore_wireScores s w, ripupWireCore_netScores s w⟩,
   ripup_net_netScores,
   fun s n w' n' => ⟨ripup_net_wireScores_le s n w', ripup_net_netScores_le s n n'⟩,
   fun s w w' n' => ⟨ripup_wire_wireScores_le s w w', ripup_wire_netScores_le s w n'⟩,
   fun s p w' n' => ⟨ripup_pip_wireScores_le s p w', ripup_pip_netScores_le s p n'⟩,
   fun s cfg arc ripup w' n' =>
     ⟨route_arc_wireScores_le s cfg arc ripup w', route_arc_netScores_le s cfg arc ripup n'⟩,
   fun cfg fuel s w' n' =>
     ⟨routerLoop_wireScores_le cfg fuel s w', routerLoop_netScores_le cfg fuel s n'⟩⟩

/-! ## Claim C9: the work queue and `queued_arcs` -/

theorem queueInv_congr {s s' : RState} (hq : s'.arcQueue = s.arcQueue)
    (ha : s'.queuedArcs = s.queuedArcs) (h : QueueInv s) : QueueInv s' := by
  unfold QueueInv at *
  rw [hq, ha]
  exact h

theorem foldl_minPri_mem (l : List ArcEntry) (b : ArcEntry) :
    l.foldl (fun b e' => if e'.pri < b.pri then e' else b) b = b ∨
    l.foldl (fun b e' => if e'.pri < b.pri then e' else b) b ∈ l := by
  induction l generalizing b with
  | nil => exact Or.inl rfl
  | cons x t ih =>
    rw [List.foldl_cons]
    rcases ih (if x.pri < b.pri then x else b) with h | h
    · rw [h]
      split
      · exact Or.inr (List.mem_cons_self _ _)
      · exact Or.inl rfl
    · exact Or.inr (List.mem_cons_of_mem _ h)

theorem queueTop_mem {q : List ArcEntry} (hq : q ≠ []) : queueTop q ∈ q := by
  cases q with
  | nil => exact absurd rfl hq
  | cons e rest =>
    show rest.foldl (fun b e' => if e'.pri < b.pri then e' else b) e ∈ e :: rest
    rcases foldl_minPri_mem rest e with h | h
    · rw [h]; exact List.mem_cons_self _ _
    · exact List.mem_cons_of_mem _ h

theorem map_arc_erase (q : List ArcEntry) (e : ArcEntry)
    (hn : (q.map (·.arc)).Nodup) (he : e ∈ q) :
    (q.erase e).map (·.arc) = (q.map (·.arc)).erase e.arc := by
  induction q with
  | nil => cases he
  | cons x t ih =>
    by_cases hx : x = e
    · subst hx
      rw [List.erase_cons_head, List.map_cons, List.erase_cons_head]
    · have het : e ∈ t := by
        rcases List.mem_cons.1 he with h | h
        · exact absurd h.symm hx
        · exact h
      have hxa : x.arc ≠ e.arc := by
        intro hcontra
        have : x.arc ∈ t.map (·.arc) := by
          rw [hcontra]
          exact List.mem_map.2 ⟨e, het, rfl⟩
        exact (List.nodup_cons.1 hn).1 this
      rw [List.erase_cons_tail, List.map_cons, List.map_cons, List.erase_cons_tail]
      · rw [ih (List.nodup_cons.1 hn).2 het]
      · simp [hxa]
      · simp [fun hc : x = e => hx hc]

theorem arc_queue_insert2_queueInv {s : RState} (a : ArcKey) (sw dw : WireId)
    (h : QueueInv s) : QueueInv (arc_queue_insert2 s a sw dw) := by
  unfold arc_queue_insert2
  split
  · exact h
  · rename_i hmem
    obtain ⟨h1, h2⟩ := h
    constructor
    · refine List.nodup_cons.2 ⟨fun hc => hmem ((h2 a).2 hc), h1⟩
    · intro a'
      simp only [List.mem_cons, List.map_cons]
      exact or_congr Iff.rfl (h2 a')

theorem arc_queue_insert_queueInv {s : RState} (a : ArcKey)
    (h : QueueInv s) : QueueInv (arc_queue_insert s a) := by
  unfold arc_queue_insert
  split
  · exact h
  · exact arc_queue_insert2_queueInv _ _ _ h

theorem arc_queue_insert_mem_noop {s : RState} (a : ArcKey)
    (h : a ∈ s.queuedArcs) : arc_queue_insert s a = s := by
  unfold arc_queue_insert
  rw [if_pos h]

theorem arc_queue_pop_queuedArcs (s : RState) :
    (arc_queue_pop s).2.queuedArcs =
      eraseAllL (arc_queue_pop s).1 s.queuedArcs := rfl

theorem arc_queue_pop_queueInv {s : RState} (h : QueueInv s) :
    QueueInv (arc_queue_pop s).2 := by
  obtain ⟨h1, h2⟩ := h
  by_cases hq : s.arcQueue = []
  · constructor
    · show ((s.arcQueue.erase (queueTop s.arcQueue)).map (·.arc)).Nodup
      rw [hq]
      exact List.nodup_nil
    · intro a
      show a ∈ eraseAllL (queueTop s.arcQueue).arc s.queuedArcs ↔
        a ∈ (s.arcQueue.erase (queueTop s.arcQueue)).map (·.arc)
      rw [hq]
      simp only [List.erase_nil, List.map_nil, List.not_mem_nil, iff_false, mem_eraseAllL]
      intro hc
      have := (h2 a).1 hc.1
      rw [hq] at this
      simp at this
  · have htop := queueTop_mem hq
    constructor
    · show ((s.arcQueue.erase (queueTop s.arcQueue)).map (·.arc)).Nodup
      rw [map_arc_erase _ _ h1 htop]
      exact h1.erase _
    · intro a
      show a ∈ eraseAllL (queueTop s.arcQueue).arc s.queuedArcs ↔
        a ∈ (s.arcQueue.erase (queueTop s.arcQueue)).map (·.arc)
      rw [map_arc_erase _ _ h1 htop, mem_eraseAllL,
        List.Nodup.mem_erase_iff h1, h2 a, and_comm]

theorem detachStep_queueInv {s : RState} (w : WireId) (a : ArcKey)
    (h : QueueInv s) : QueueInv (detachStep w s a) := by
  unfold detachStep
  exact arc_queue_insert_queueInv _ (queueInv_congr rfl rfl h)

theorem foldl_detachStep_queueInv (w : WireId) (l : List ArcKey) {s : RState}
    (h : QueueInv s) : QueueInv (l.foldl (detachStep w) s) := by
  induction l generalizing s with
  | nil => exact h
  | cons a t ih => exact ih (detachStep_queueInv w a h)

theorem ripupWireCore_queueInv {s : RState} (w : WireId)
    (h : QueueInv s) : QueueInv (ripupWireCore s w) := by
  unfold ripupWireCore detachWireArcs
  exact queueInv_congr rfl rfl (foldl_detachStep_queueInv _ _ h)

theorem foldl_ripupWireCore_queueInv (l : Bindings) {s : RState}
    (h : QueueInv s) : QueueInv (l.foldl (fun s e => ripupWireCore s e.1) s) := by
  induction l generalizing s with
  | nil => exact h
  | cons e t ih => exact ih (ripupWireCore_queueInv e.1 h)

theorem ripup_net_queueInv {s : RState} (n : NetId)
    (h : QueueInv s) : QueueInv (ripup_net s n) := by
  unfold ripup_net
  exact queueInv_congr rfl rfl
    (foldl_ripupWireCore_queueInv _ (queueInv_congr rfl rfl h))

theorem ripupDisp_queueInv {s : RState} (w : WireId) (cnet : Option NetId)
    (h : QueueInv s) : QueueInv (ripupDisp s w cnet) := by
  unfold ripupDisp
  split
  · cases cnet with
    | none => exact h
    | some n => exact ripup_net_queueInv _ h
  · exact ripupWireCore_queueInv _ h

theorem ripup_wire_queueInv {s : RState} (w : WireId)
    (h : QueueInv s) : QueueInv (ripup_wire s w) := by
  unfold ripup_wire
  exact queueInv_congr rfl rfl (ripupDisp_queueInv _ _ (queueInv_congr rfl rfl h))

theorem ripup_pip_queueInv {s : RState} (p : PipId)
    (h : QueueInv s) : QueueInv (ripup_pip s p) := by
  unfold ripup_pip
  exact queueInv_congr rfl rfl (ripupDisp_queueInv _ _ (queueInv_congr rfl rfl h))

theorem prepArc_queueInv {s : RState} (arc : ArcKey)
    (h : QueueInv s) : QueueInv (prepArc s arc) :=
  queueInv_congr (prepArc_arcQueue s arc) (prepArc_queuedArcs s arc) h

theorem commitBindPhase_queueInv {s : RState} (arch : Arch) (netId : NetId)
    (cursor : WireId) (pip : PipId)
    (h : QueueInv s) : QueueInv (commitBindPhase arch s netId cursor pip) := by
  unfold commitBindPhase commitBindDo commitRipupPip commitRipupWire
  split
  · split <;>
      refine queueInv_congr rfl rfl ?_ <;>
      split <;> split <;>
      first
        | exact h
        | exact ripup_pip_queueInv _ h
        | exact ripup_wire_queueInv _ h
        | exact ripup_pip_queueInv _ (ripup_wire_queueInv _ h)
  · exact h

theorem commitLoop_queueInv (arch : Arch) (fuel : Nat) {s : RState} (arc : ArcKey)
    (netId : NetId) (srcWire : WireId) (visited : WireId → Option QueuedWire)
    (cursor : WireId)
    (h : QueueInv s) :
    QueueInv (commitLoop arch fuel s arc netId srcWire visited cursor) := by
  induction fuel generalizing s cursor with
  | zero => exact h
  | succ f ih =>
    rw [commitLoop]
    split
    · exact queueInv_congr rfl rfl (commitBindPhase_queueInv _ _ _ _ h)
    · exact ih _ (queueInv_congr rfl rfl (commitBindPhase_queueInv _ _ _ _ h))

theorem routeCommit_queueInv {s1 : RState} (arc : ArcKey) (ast : AState)
    (h : QueueInv s1) : QueueInv (routeCommit s1 arc ast).2 := by
  unfold routeCommit
  split
  · exact queueInv_congr rfl rfl h
  · unfold routeWrap
    split <;>
      exact queueInv_congr rfl rfl
        (commitLoop_queueInv _ _ _ _ _ _ _ (queueInv_congr rfl rfl h))

theorem route_arc_queueInv {s : RState} (cfg : Cfg) (arc : ArcKey) (ripup : Bool)
    (h : QueueInv s) : QueueInv (route_arc s cfg arc ripup).2 := by
  unfold route_arc
  exact routeCommit_queueInv _ _ (prepArc_queueInv _ (queueInv_congr rfl rfl h))

theorem setupAttachAll_queueInv {rs : RState} (arc : ArcKey) (ws : List WireId)
    (h : QueueInv rs) : QueueInv (setupAttachAll arc rs ws) := by
  unfold setupAttachAll
  induction ws generalizing rs with
  | nil => exact h
  | cons w t ih => exact ih (queueInv_congr rfl rfl h)

theorem setupUserRoute_queueInv {rs : RState} (arch : Arch) (n : NetId)
    (srcW dstW : WireId) (arc : ArcKey)
    (h : QueueInv rs) : QueueInv (setupUserRoute arch n srcW dstW arc rs) := by
  unfold setupUserRoute
  split
  · exact arc_queue_insert2_queueInv _ _ _ h
  · split
    · exact setupAttachAll_queueInv _ _ h
    · exact arc_queue_insert2_queueInv _ _ _ (setupAttachAll_queueInv _ _ h)

theorem setupUser_queueInv {st : SetupSt} (arch : Arch) (n : NetId) (srcW : WireId)
    (i : Nat) (h : QueueInv st.rs) : QueueInv (setupUser arch n srcW st i).rs := by
  unfold setupUser
  split
  · exact h
  · split
    · exact h
    · split
      · split
        · exact h
        · exact h
      · split
        · exact h
        · exact setupUserRoute_queueInv _ _ _ _ _ h

theorem foldl_setupUser_queueInv (arch : Arch) (n : NetId) (srcW : WireId)
    (l : List Nat) {st : SetupSt} (h : QueueInv st.rs) :
    QueueInv (l.foldl (setupUser arch n srcW) st).rs := by
  induction l generalizing st with
  | nil => exact h
  | cons i t ih => exact ih (setupUser_queueInv arch n srcW i h)

theorem foldl_unbind_queueInv (l : Bindings) {rs : RState} (h : QueueInv rs) :
    QueueInv (l.foldl (fun s e => unbindOp s e.1) rs) := by
  induction l generalizing rs with
  | nil => exact h
  | cons e t ih => exact ih (queueInv_congr rfl rfl h)

theorem setupNet_queueInv {st : SetupSt} (arch : Arch) (n : NetId)
    (h : QueueInv st.rs) : QueueInv (setupNet arch st n).rs := by
  unfold setupNet setupNetFinish
  split
  · exact h
  · split
    · exact h
    · split
      · exact h
      · split
        · exact h
        · split
          · exact h
          · split
            · exact foldl_setupUser_queueInv _ _ _ _ h
            · exact foldl_unbind_queueInv _ (foldl_setupUser_queueInv _ _ _ _ h)

theorem initState_queueInv (arch : Arch) (b0 : Bindings) :
    QueueInv (initState arch b0) := by
  constructor
  · exact List.nodup_nil
  · intro a
    simp [initState]

theorem setup_queueInv (arch : Arch) (b0 : Bindings) : QueueInv (setup arch b0).1 := by
  unfold setup
  have : ∀ (l : List NetId) (st : SetupSt), QueueInv st.rs →
      QueueInv (l.foldl (setupNet arch) st).rs := by
    intro l
    induction l with
    | nil => exact fun _ h => h
    | cons n t ih => exact fun st h => ih _ (setupNet_queueInv arch n h)
  exact this _ _ (initState_queueInv arch b0)

theorem routerLoop_queueInv (cfg : Cfg) (fuel : Nat) {s : RState}
    (h : QueueInv s) : QueueInv (routerLoop cfg fuel s).2.2 := by
  induction fuel generalizing s with
  | zero => exact h
  | succ f ih =>
    rw [routerLoop]
    split
    · exact h
    · split
      · exact ih (route_arc_queueInv _ _ _ (arc_queue_pop_queueInv h))
      · exact route_arc_queueInv _ _ _ (arc_queue_pop_queueInv h)

/-- C9.  At every observable point each arc occurs at most once in
`arc_queue` and `queued_arcs` is exactly the set of queued arcs:
`arc_queue_insert` is a no-op for an arc already in `queued_arcs`,
`arc_queue_pop` erases the popped arc from `queued_arcs`, the invariant
holds after setup and is preserved by the queue operations, the rip-up
routines, `route_arc` and the outer loop. -/
theorem c9_queue_invariant :
    (∀ (s : RState) (a : ArcKey), a ∈ s.queuedArcs → arc_queue_insert s a = s) ∧
    (∀ s : RState, (arc_queue_pop s).2.queuedArcs =
        eraseAllL (arc_queue_pop s).1 s.queuedArcs) ∧
    (∀ (arch : Arch) (b0 : Bindings), QueueInv (setup arch b0).1) ∧
    (∀ (s : RState) (a : ArcKey), QueueInv s → QueueInv (arc_queue_insert s a)) ∧
    (∀ s : RState, QueueInv s → QueueInv (arc_queue_pop s).2) ∧
    (∀ (s : RState) (n : NetId), QueueInv s → QueueInv (ripup_net s n)) ∧
    (∀ (s : RState) (w : WireId), QueueInv s → QueueInv (ripup_wire s w)) ∧
    (∀ (s : RState) (p : PipId), QueueInv s → QueueInv (ripup_pip s p)) ∧
    (∀ (s : RState) (cfg : Cfg) (arc : ArcKey) (ripup : Bool),
        QueueInv s → QueueInv (route_arc s cfg arc ripup).2) ∧
    (∀ (cfg : Cfg) (fuel : Nat) (s : RState),
        QueueInv s → QueueInv (routerLoop cfg fuel s).2.2) :=
  ⟨fun _ a h => arc_queue_insert_mem_noop a h,
   arc_queue_pop_queuedArcs,
   setup_queueInv,
   fun _ a h => arc_queue_insert_queueInv a h,
   fun _ h => arc_queue_pop_queueInv h,
   fun _ n h => ripup_net_queueInv n h,
   fun _ w h => ripup_wire_queueInv w h,
   fun _ p h => ripup_pip_queueInv p h,
   fun _ cfg arc ripup h => route_arc_queueInv cfg arc ripup h,
   fun cfg fuel _ h => routerLoop_queueInv cfg fuel h⟩

/-- C9 witness: the invariant parts applied at the concrete queue state
`stateC1`, whose invariant is produced by the theorem's own insert clause
from the fresh state. -/
theorem c9_queue_invariant_witness :
    arc_queue_insert stateC1 ⟨0, 0⟩ = stateC1 ∧
    QueueInv stateC1 ∧ QueueInv (arc_queue_pop stateC1).2 :=
  have h0 : QueueInv (initState archA []) := initState_queueInv archA []
  have h1 : QueueInv stateC1 :=
    c9_queue_invariant.2.2.2.1 _ ⟨0, 1⟩
      (c9_queue_invariant.2.2.2.1 _ ⟨0, 0⟩ h0)
  ⟨c9_queue_invariant.1 stateC1 ⟨0, 0⟩ (by decide),
   h1,
   c9_queue_invariant.2.2.2.2.1 stateC1 h1⟩

/-! ## Claims C4 and C10: the failure path of `route_arc` -/

theorem route_arc_fail {s : RState} (cfg : Cfg) (arc : ArcKey) (ripup : Bool)
    (h : routeVisited s cfg arc ripup (s.ctx.arch.sinkWire arc.net arc.userIdx) = none) :
    route_arc s cfg arc ripup =
      (false, rngSet (prepArc { s with ripupFlag := false } arc)
        (routeSearchCore (prepArc { s with ripupFlag := false } arc) cfg arc ripup).rngCtr) := by
  unfold routeVisited at h
  unfold route_arc routeCommit
  rw [prepArc_arch, h]

theorem routerLoop_fail_step (cfg : Cfg) (fuel : Nat) (s : RState)
    (hq : s.arcQueue ≠ [])
    (hfail : (route_arc (arc_queue_pop s).2 cfg (arc_queue_pop s).1 true).1 = false) :
    routerLoop cfg (fuel + 1) s =
      (false, some (arc_queue_pop s).1,
        (route_arc (arc_queue_pop s).2 cfg (arc_queue_pop s).1 true).2) := by
  rw [routerLoop]
  rw [if_neg (by simp [List.isEmpty_iff, hq]), if_neg (by simp [hfail])]

/-- C4.  If the A* search exhausted its frontier or visit budget without the
sink wire entering the visited map, `route_arc` returns failure without
invoking any rip-up entry point (the entry counter of
`ripup_net`/`ripup_wire`/`ripup_pip` is unchanged), and the outer loop then
reports the offending arc and returns overall failure. -/
theorem c4_search_failure_no_ripup :
    (∀ (s : RState) (cfg : Cfg) (arc : ArcKey) (ripup : Bool),
        routeVisited s cfg arc ripup (s.ctx.arch.sinkWire arc.net arc.userIdx) = none →
        (route_arc s cfg arc ripup).1 = false ∧
        (route_arc s cfg arc ripup).2.ripupCalls = s.ripupCalls) ∧
    (∀ (cfg : Cfg) (fuel : Nat) (s : RState),
        s.arcQueue ≠ [] →
        (route_arc (arc_queue_pop s).2 cfg (arc_queue_pop s).1 true).1 = false →
        routerLoop cfg (fuel + 1) s =
          (false, some (arc_queue_pop s).1,
            (route_arc (arc_queue_pop s).2 cfg (arc_queue_pop s).1 true).2)) := by
  constructor
  · intro s cfg arc ripup h
    rw [route_arc_fail cfg arc ripup h]
    exact ⟨rfl, by simp [rngSet, prepArc_ripupCalls]⟩
  · exact routerLoop_fail_step

/-- C4 witness: on `archA` (a fabric with no pips) the arc (0,0) cannot be
routed; `route_arc` fails without rip-ups and the outer loop on `stateC1`
reports the popped arc and returns failure. -/
theorem c4_search_failure_no_ripup_witness :
    ((route_arc (initState archA []) cfg0 ⟨0, 0⟩ true).1 = false ∧
     (route_arc (initState archA []) cfg0 ⟨0, 0⟩ true).2.ripupCalls =
       (initState archA []).ripupCalls) ∧
    routerLoop cfg0 1 stateC1 =
      (false, some (arc_queue_pop stateC1).1,
        (route_arc (arc_queue_pop stateC1).2 cfg0 (arc_queue_pop stateC1).1 true).2) :=
  ⟨c4_search_failure_no_ripup.1 (initState archA []) cfg0 ⟨0, 0⟩ true (by decide),
   c4_search_failure_no_ripup.2 cfg0 0 stateC1 (by decide) (by decide)⟩

theorem foldl_prepStep_events (arc : ArcKey) (l : List WireId) (t : RState)
    (hnd : l.Nodup) :
    (l.foldl (prepStep arc) t).ctx.events =
      (l.filter (fun w => (eraseAllL arc (t.wireToArcs w)).isEmpty)).reverse.map
          Event.unbind ++ t.ctx.events := by
  induction l generalizing t with
  | nil => simp
  | cons w rest ih =>
    rw [List.foldl_cons]
    have hrest : ∀ w' ∈ rest, (prepStep arc t w).wireToArcs w' = t.wireToArcs w' := by
      intro w' hw'
      rw [prepStep_wireToArcs, upd_apply, if_neg]
      intro hc
      subst hc
      exact (List.nodup_cons.1 hnd).1 hw'
    rw [ih _ (List.nodup_cons.1 hnd).2]
    have hfc : rest.filter
          (fun w' => (eraseAllL arc ((prepStep arc t w).wireToArcs w')).isEmpty) =
        rest.filter (fun w' => (eraseAllL arc (t.wireToArcs w')).isEmpty) := by
      apply List.filter_congr
      intro w' hw'
      rw [hrest w' hw']
    rw [hfc, prepStep_events]
    by_cases hw : eraseAllL arc (t.wireToArcs w) = []
    · rw [if_pos hw, List.filter_cons_of_pos (by simp [hw]), List.reverse_cons,
        List.map_append]
      simp
    · rw [if_neg hw, List.filter_cons_of_neg (by simp [hw])]

theorem prepArc_events (s : RState) (arc : ArcKey)
    (hnd : (s.arcToWires arc).Nodup) :
    (prepArc s arc).ctx.events =
      ((s.arcToWires arc).filter
          (fun w => (eraseAllL arc (s.wireToArcs w)).isEmpty)).reverse.map Event.unbind
        ++ s.ctx.events := by
  rw [prepArc_eq, foldl_prepStep_events _ _ _ hnd]

/-- C10.  When `route_arc` fails, the arc's state has already changed during
preparation: `arc_to_wires[arc]` is empty on return, exactly the wires whose
arc set became empty were unbound in the oracle (the new events are those
unbinds and nothing else), and `route_arc` neither restores the previous
route nor re-enqueues the arc (work queue and `queued_arcs` are unchanged). -/
theorem c10_route_arc_failure_state (s : RState) (cfg : Cfg) (arc : ArcKey)
    (ripup : Bool) (hnd : (s.arcToWires arc).Nodup)
    (h : routeVisited s cfg arc ripup (s.ctx.arch.sinkWire arc.net arc.userIdx) = none) :
    (route_arc s cfg arc ripup).1 = false ∧
    (route_arc s cfg arc ripup).2.arcToWires arc = [] ∧
    (route_arc s cfg arc ripup).2.arcQueue = s.arcQueue ∧
    (route_arc s cfg arc ripup).2.queuedArcs = s.queuedArcs ∧
    (route_arc s cfg arc ripup).2.ctx.events =
      ((s.arcToWires arc).filter
          (fun w => (eraseAllL arc (s.wireToArcs w)).isEmpty)).reverse.map Event.unbind
        ++ s.ctx.events := by
  rw [route_arc_fail cfg arc ripup h]
  refine ⟨rfl, ?_, ?_, ?_, ?_⟩
  · show (prepArc { s with ripupFlag := false } arc).arcToWires arc = []
    rw [prepArc_arcToWires, upd_apply, if_pos rfl]
  · show (prepArc { s with ripupFlag := false } arc).arcQueue = s.arcQueue
    rw [prepArc_arcQueue]
  · show (prepArc { s with ripupFlag := false } arc).queuedArcs = s.queuedArcs
    rw [prepArc_queuedArcs]
  · show (prepArc { s with ripupFlag := false } arc).ctx.events = _
    exact prepArc_events { s with ripupFlag := false } arc hnd

/-- C10 witness: on `stateC10`, where arc (0,0) occupies exactly the bound
wire 7, the failing `route_arc` empties the arc's wire set, leaves the work
queue untouched and unbinds wire 7. -/
theorem c10_route_arc_failure_state_witness :
    (route_arc stateC10 cfg0 ⟨0, 0⟩ true).1 = false ∧
    (route_arc stateC10 cfg0 ⟨0, 0⟩ true).2.arcToWires ⟨0, 0⟩ = [] ∧
    (route_arc stateC10 cfg0 ⟨0, 0⟩ true).2.arcQueue = stateC10.arcQueue ∧
    (route_arc stateC10 cfg0 ⟨0, 0⟩ true).2.queuedArcs = stateC10.queuedArcs ∧
    (route_arc stateC10 cfg0 ⟨0, 0⟩ true).2.ctx.events =
      ((stateC10.arcToWires ⟨0, 0⟩).filter
          (fun w => (eraseAllL ⟨0, 0⟩ (stateC10.wireToArcs w)).isEmpty)).reverse.map
          Event.unbind ++ stateC10.ctx.events :=
  c10_route_arc_failure_state stateC10 cfg0 ⟨0, 0⟩ true (by decide) (by decide)

/-! ## Claim C6: setup on a fully routed design -/

theorem setupAttachAll_arcQueue (arc : ArcKey) (rs : RState) (ws : List WireId) :
    (setupAttachAll arc rs ws).arcQueue = rs.arcQueue := by
  unfold setupAttachAll
  induction ws generalizing rs with
  | nil => rfl
  | cons w t ih => rw [List.foldl_cons, ih]; simp

theorem setupAttachAll_ctx (arc : ArcKey) (rs : RState) (ws : List WireId) :
    (setupAttachAll arc rs ws).ctx = rs.ctx := by
  unfold setupAttachAll
  induction ws generalizing rs with
  | nil => rfl
  | cons w t ih => rw [List.foldl_cons, ih]; simp

theorem attachArc_mem_mono {s : RState} {a' : ArcKey} {w' : WireId} (a : ArcKey)
    (w : WireId) (h : a' ∈ s.wireToArcs w') : a' ∈ (attachArc s a w).wireToArcs w' := by
  rw [attachArc_wireToArcs, upd_apply]
  split
  · rename_i hw
    subst hw
    exact List.mem_insert_iff.2 (Or.inr h)
  · exact h

theorem setupAttachAll_mem_mono {rs : RState} {a' : ArcKey} {w' : WireId}
    (arc : ArcKey) (ws : List WireId) (h : a' ∈ rs.wireToArcs w') :
    a' ∈ (setupAttachAll arc rs ws).wireToArcs w' := by
  unfold setupAttachAll
  induction ws generalizing rs with
  | nil => exact h
  | cons w t ih => exact ih (attachArc_mem_mono arc w h)

theorem setupAttachAll_mem_self (arc : ArcKey) (rs : RState) (ws : List WireId)
    (w : WireId) (hw : w ∈ ws) : arc ∈ (setupAttachAll arc rs ws).wireToArcs w := by
  induction ws generalizing rs with
  | nil => cases hw
  | cons x t ih =>
    rcases List.mem_cons.1 hw with h | h
    · subst h
      have hbase : arc ∈ (attachArc rs arc w).wireToArcs w := by
        rw [attachArc_wireToArcs, upd_apply, if_pos rfl]
        exact List.mem_insert_iff.2 (Or.inl rfl)
      exact setupAttachAll_mem_mono arc t hbase
    · exact ih (attachArc rs arc x) h

theorem setupUserRoute_routed (arch : Arch) (n : NetId) (srcW dstW : WireId)
    (arc : ArcKey) (rs : RState)
    (h1 : containsKey (netWires rs.ctx.bindings n) srcW = true)
    (h2 : setupWalkReaches arch (netWires rs.ctx.bindings n) srcW dstW = true) :
    setupUserRoute arch n srcW dstW arc rs =
      setupAttachAll arc rs (setupWalkWires arch (netWires rs.ctx.bindings n) srcW dstW) := by
  unfold setupUserRoute
  rw [if_neg (by simp [h1]), if_pos h2]

theorem setupUser_err_mono (arch : Arch) (n : NetId) (srcW : WireId) (st : SetupSt)
    (i : Nat) (h : st.err = true) : (setupUser arch n srcW st i).err = true := by
  unfold setupUser
  rw [if_pos h]
  exact h

theorem foldl_setupUser_err_mono (arch : Arch) (n : NetId) (srcW : WireId)
    (l : List Nat) (st : SetupSt) (h : st.err = true) :
    (l.foldl (setupUser arch n srcW) st).err = true := by
  induction l generalizing st with
  | nil => exact h
  | cons i t ih => exact ih _ (setupUser_err_mono arch n srcW st i h)

theorem setupUser_dstToArc_mono (arch : Arch) (n : NetId) (srcW : WireId)
    (st : SetupSt) (i : Nat) {e : WireId × ArcKey} (h : e ∈ st.dstToArc) :
    e ∈ (setupUser arch n srcW st i).dstToArc := by
  unfold setupUser
  split
  · exact h
  · split
    · exact h
    · split
      · split
        · exact h
        · exact h
      · split
        · exact h
        · exact List.mem_cons_of_mem _ h

theorem foldl_setupUser_dstToArc_mono (arch : Arch) (n : NetId) (srcW : WireId)
    (l : List Nat) (st : SetupSt) {e : WireId × ArcKey} (h : e ∈ st.dstToArc) :
    e ∈ (l.foldl (setupUser arch n srcW) st).dstToArc := by
  induction l generalizing st with
  | nil => exact h
  | cons i t ih => exact ih _ (setupUser_dstToArc_mono arch n srcW st i h)

theorem setupUserRoute_wireToArcs_mono (arch : Arch) (n : NetId) (srcW dstW : WireId)
    (arc : ArcKey) (rs : RState) {a' : ArcKey} {w' : WireId}
    (h : a' ∈ rs.wireToArcs w') :
    a' ∈ (setupUserRoute arch n srcW dstW arc rs).wireToArcs w' := by
  unfold setupUserRoute
  split
  · simpa using h
  · split
    · exact setupAttachAll_mem_mono _ _ h
    · simp only [arc_queue_insert2_wireToArcs]
      exact setupAttachAll_mem_mono _ _ h

theorem setupUser_wireToArcs_mono (arch : Arch) (n : NetId) (srcW : WireId)
    (st : SetupSt) (i : Nat) {a' : ArcKey} {w' : WireId}
    (h : a' ∈ st.rs.wireToArcs w') :
    a' ∈ (setupUser arch n srcW st i).rs.wireToArcs w' := by
  unfold setupUser
  split
  · exact h
  · split
    · exact h
    · split
      · split
        · exact h
        · exact h
      · split
        · exact h
        · exact setupUserRoute_wireToArcs_mono arch n srcW _ _ st.rs h

/-- One user's processing on a routed design: the state stays pristine, the
cover invariant is maintained, and (absent errors) the user's sink wire is
registered in `dst_to_arc` with an arc of this net. -/
theorem setupUser_routed (arch : Arch) (b0 : Bindings) (n : NetId) (st : SetupSt)
    (i : Nat)
    (hsrc : containsKey (netWires b0 n) (arch.sourceWire n) = true)
    (hreach : setupWalkReaches arch (netWires b0 n) (arch.sourceWire n)
        (arch.sinkWire n i) = true)
    (hP : SetupPres b0 st) (hC : SetupCover arch b0 st) :
    SetupPres b0 (setupUser arch n (arch.sourceWire n) st i) ∧
    SetupCover arch b0 (setupUser arch n (arch.sourceWire n) st i) ∧
    ((setupUser arch n (arch.sourceWire n) st i).err = false →
      ∃ e ∈ (setupUser arch n (arch.sourceWire n) st i).dstToArc,
        e.1 = arch.sinkWire n i ∧ e.2.net = n) := by
  obtain ⟨hQ, hB, hE⟩ := hP
  unfold setupUser
  split
  · exact ⟨⟨hQ, hB, hE⟩, hC, fun hne => by
      rename_i herr
      rw [herr] at hne
      simp at hne⟩
  · rename_i herr1
    have herrf : st.err = false := by simpa using herr1
    split
    · exact ⟨⟨hQ, hB, hE⟩, fun hne => by simp at hne, fun hne => by simp at hne⟩
    · split
      · rename_i e heq
        split
        · rename_i hnet
          refine ⟨⟨hQ, hB, hE⟩, hC, fun _ => ?_⟩
          refine ⟨e, List.mem_of_find?_eq_some heq, ?_, hnet⟩
          have := List.find?_some heq
          simpa using this
        · exact ⟨⟨hQ, hB, hE⟩, fun hne => by simp at hne, fun hne => by simp at hne⟩
      · split
        · exact ⟨⟨hQ, hB, hE⟩, fun hne => by simp at hne, fun hne => by simp at hne⟩
        · have hroute : setupUserRoute arch n (arch.sourceWire n) (arch.sinkWire n i)
              ⟨n, i⟩ st.rs =
              setupAttachAll ⟨n, i⟩ st.rs
                (setupWalkWires arch (netWires b0 n) (arch.sourceWire n)
                  (arch.sinkWire n i)) := by
            rw [setupUserRoute_routed arch n _ _ _ _ (by rw [hB]; exact hsrc)
              (by rw [hB]; exact hreach), hB]
          refine ⟨⟨?_, ?_, ?_⟩, ?_, ?_⟩
          · show (setupUserRoute arch n (arch.sourceWire n) (arch.sinkWire n i)
              ⟨n, i⟩ st.rs).arcQueue = []
            rw [hroute, setupAttachAll_arcQueue]
            exact hQ
          · show (setupUserRoute arch n (arch.sourceWire n) (arch.sinkWire n i)
              ⟨n, i⟩ st.rs).ctx.bindings = b0
            rw [hroute, setupAttachAll_ctx]
            exact hB
          · show (setupUserRoute arch n (arch.sourceWire n) (arch.sinkWire n i)
              ⟨n, i⟩ st.rs).ctx.events = []
            rw [hroute, setupAttachAll_ctx]
            exact hE
          · intro _ e he w hw
            rcases List.mem_cons.1 he with he1 | he1
            · subst he1
              show (setupUserRoute arch n (arch.sourceWire n) (arch.sinkWire n i)
                ⟨n, i⟩ st.rs).wireToArcs w ≠ []
              rw [hroute]
              intro hcontra
              have hmem := setupAttachAll_mem_self ⟨n, i⟩ st.rs _ w (by simpa using hw)
              rw [hcontra] at hmem
              cases hmem
            · have hold := hC herrf e he1 w hw
              rcases List.exists_mem_of_ne_nil _ hold with ⟨a', ha'⟩
              have hmem : a' ∈ (setupUserRoute arch n (arch.sourceWire n)
                  (arch.sinkWire n i) ⟨n, i⟩ st.rs).wireToArcs w :=
                setupUserRoute_wireToArcs_mono arch n _ _ _ st.rs ha'
              intro hcontra
              rw [hcontra] at hmem
              cases hmem
          · intro _
            exact ⟨(arch.sinkWire n i, ⟨n, i⟩), List.mem_cons_self _ _, rfl, rfl⟩

theorem foldl_setupUser_routed (arch : Arch) (b0 : Bindings) (n : NetId)
    (l : List Nat) (st : SetupSt)
    (hsrc : containsKey (netWires b0 n) (arch.sourceWire n) = true)
    (hreach : ∀ i ∈ l, setupWalkReaches arch (netWires b0 n) (arch.sourceWire n)
        (arch.sinkWire n i) = true)
    (hP : SetupPres b0 st) (hC : SetupCover arch b0 st) :
    SetupPres b0 (l.foldl (setupUser arch n (arch.sourceWire n)) st) ∧
    SetupCover arch b0 (l.foldl (setupUser arch n (arch.sourceWire n)) st) ∧
    ((l.foldl (setupUser arch n (arch.sourceWire n)) st).err = false →
      ∀ i ∈ l, ∃ e ∈ (l.foldl (setupUser arch n (arch.sourceWire n)) st).dstToArc,
        e.1 = arch.sinkWire n i ∧ e.2.net = n) := by
  induction l generalizing st with
  | nil => exact ⟨hP, hC, fun _ i hi => absurd hi (List.not_mem_nil i)⟩
  | cons j t ih =>
    obtain ⟨hP1, hC1, hreg⟩ := setupUser_routed arch b0 n st j hsrc
      (hreach j (List.mem_cons_self j t)) hP hC
    obtain ⟨hP2, hC2, hall⟩ := ih (setupUser arch n (arch.sourceWire n) st j)
      (fun i hi => hreach i (List.mem_cons_of_mem j hi)) hP1 hC1
    refine ⟨hP2, hC2, ?_⟩
    intro herr i hi
    rcases List.mem_cons.1 hi with h | h
    · subst h
      have hstep : (setupUser arch n (arch.sourceWire n) st i).err = false := by
        rcases Bool.eq_false_or_eq_true
            (setupUser arch n (arch.sourceWire n) st i).err with ht | hf
        · exfalso
          have := foldl_setupUser_err_mono arch n (arch.sourceWire n) t _ ht
          rw [List.foldl_cons] at herr
          rw [herr] at this
          cases this
        · exact hf
      obtain ⟨e, he, h1, h2⟩ := hreg hstep
      exact ⟨e, foldl_setupUser_dstToArc_mono arch n (arch.sourceWire n) t _ he, h1, h2⟩
    · exact hall herr i h

theorem foldl_unbind_wireToArcs (l : Bindings) (rs : RState) :
    (l.foldl (fun s e => unbindOp s e.1) rs).wireToArcs = rs.wireToArcs := by
  induction l generalizing rs with
  | nil => rfl
  | cons e t ih => rw [List.foldl_cons, ih]; rfl

theorem setupNetFinish_routed (b0 : Bindings) (n : NetId) (srcW : WireId)
    (st : SetupSt) (hP : SetupPres b0 st)
    (hful : st.err = false → ∀ e ∈ netWires b0 n, st.rs.wireToArcs e.1 ≠ []) :
    SetupPres b0 (setupNetFinish n srcW st) ∧
    (setupNetFinish n srcW st).rs.wireToArcs = st.rs.wireToArcs ∧
    (setupNetFinish n srcW st).dstToArc = st.dstToArc ∧
    (setupNetFinish n srcW st).err = st.err := by
  obtain ⟨hQ, hB, hE⟩ := hP
  unfold setupNetFinish
  split
  · exact ⟨⟨hQ, hB, hE⟩, rfl, rfl, rfl⟩
  · rename_i herr1
    have herrf : st.err = false := by simpa using herr1
    have horph : setupOrphans st.rs n = [] := by
      unfold setupOrphans
      rw [List.filter_eq_nil_iff]
      intro e he
      rw [hB] at he
      have hne := hful herrf e he
      simp [List.isEmpty_iff, hne]
    rw [horph]
    exact ⟨⟨hQ, hB, hE⟩, rfl, rfl, rfl⟩

theorem setupNet_routed (arch : Arch) (b0 : Bindings) (st : SetupSt) (n : NetId)
    (hw : skip_net arch n = false → ∀ i < arch.usersCount n,
        setupWalkReaches arch (netWires b0 n) (arch.sourceWire n)
          (arch.sinkWire n i) = true)
    (hcov : skip_net arch n = false → ∀ e ∈ netWires b0 n,
        ∃ i < arch.usersCount n,
          e.1 ∈ setupWalkWires arch (netWires b0 n) (arch.sourceWire n)
            (arch.sinkWire n i))
    (hsb : skip_net arch n = false → 1 ≤ arch.usersCount n →
        containsKey (netWires b0 n) (arch.sourceWire n) = true)
    (hP : SetupPres b0 st) (hC : SetupCover arch b0 st) :
    SetupPres b0 (setupNet arch st n) ∧ SetupCover arch b0 (setupNet arch st n) := by
  unfold setupNet
  split
  · exact ⟨hP, hC⟩
  · split
    · exact ⟨hP, hC⟩
    · rename_i herr0 hskip1
      have hskip : skip_net arch n = false := by simpa using hskip1
      split
      · exact ⟨hP, fun hff => by simp at hff⟩
      · split
        · exact ⟨hP, fun hff => by simp at hff⟩
        · split
          · exact ⟨hP, fun hff => by simp at hff⟩
          · by_cases hcnt : arch.usersCount n = 0
            · rw [hcnt]
              simp only [List.range_zero, List.foldl_nil]
              obtain ⟨hfin, hwta, hdta, herr⟩ := setupNetFinish_routed b0 n
                (arch.sourceWire n) st hP (by
                  intro _ e he
                  obtain ⟨i, hi, _⟩ := hcov hskip e he
                  rw [hcnt] at hi
                  cases hi)
              refine ⟨hfin, ?_⟩
              intro herr2 e he w hw2
              rw [hdta] at he
              rw [hwta]
              exact hC (by rw [herr] at herr2; exact herr2) e he w hw2
            · have hsrc := hsb hskip (Nat.one_le_iff_ne_zero.2 hcnt)
              obtain ⟨hP2, hC2, hall⟩ := foldl_setupUser_routed arch b0 n
                (List.range (arch.usersCount n)) st hsrc
                (fun i hi => hw hskip i (List.mem_range.1 hi)) hP hC
              obtain ⟨hfin, hwta, hdta, herr⟩ := setupNetFinish_routed b0 n
                (arch.sourceWire n) _ hP2 (by
                  intro herr2 e he
                  obtain ⟨i, hi, hwmem⟩ := hcov hskip e he
                  obtain ⟨entry, hentry, h1, h2⟩ := hall herr2 i (List.mem_range.2 hi)
                  have := hC2 herr2 entry hentry e.1 (by rw [h1, h2]; exact hwmem)
                  exact this)
              refine ⟨hfin, ?_⟩
              intro herr2 e he w hw2
              rw [hdta] at he
              rw [hwta]
              exact hC2 (by rw [herr] at herr2; exact herr2) e he w hw2

/-- C6 (amended).  Setup on a fully and validly routed design — every arc's
backward walk reaches the source AND the source wire of every non-skipped
net with at least one user is itself bound — produces an empty work queue
and leaves the oracle untouched: no bind or unbind call is made and the
bindings are unchanged. -/
theorem c6_setup_idempotent_amended (arch : Arch) (b0 : Bindings)
    (hFR : FullyRouted arch b0) (hSB : SourcesBound arch b0) :
    (setup arch b0).1.arcQueue = [] ∧
    (setup arch b0).1.ctx.bindings = b0 ∧
    (setup arch b0).1.ctx.events = [] := by
  unfold setup
  have main : ∀ (l : List NetId) (st : SetupSt), (∀ n ∈ l, n ∈ arch.nets) →
      SetupPres b0 st → SetupCover arch b0 st →
      SetupPres b0 (l.foldl (setupNet arch) st) ∧
      SetupCover arch b0 (l.foldl (setupNet arch) st) := by
    intro l
    induction l with
    | nil => exact fun st _ hP hC => ⟨hP, hC⟩
    | cons n t ih =>
      intro st hmem hP hC
      have hn : n ∈ arch.nets := hmem n (List.mem_cons_self n t)
      obtain ⟨hP1, hC1⟩ := setupNet_routed arch b0 st n
        (fun hskip => (hFR n hn hskip).1)
        (fun hskip => (hFR n hn hskip).2)
        (fun hskip h1 => hSB n hn hskip h1)
        hP hC
      exact ih _ (fun m hm => hmem m (List.mem_cons_of_mem n hm)) hP1 hC1
  obtain ⟨⟨hQ, hB, hE⟩, _⟩ := main arch.nets ⟨initState arch b0, [], [], false⟩
    (fun _ h => h) ⟨rfl, rfl, rfl⟩ (fun _ e he => absurd he (List.not_mem_nil e))
  exact ⟨hQ, hB, hE⟩

/-- C6 (counterexample).  The design `(archC, bindC6)` satisfies the claim's
hypothesis as stated — the single arc's backward walk from sink wire 2
through the stored map reaches source wire 1, and the only bound wire is
covered by that walk — yet setup enqueues the arc (the source wire itself is
not bound) and unbinds wire 2, so the work queue is not empty and the
bindings change. -/
theorem c6_setup_idempotent_counterexample :
    FullyRouted archC bindC6 ∧
    (setup archC bindC6).1.arcQueue ≠ [] ∧
    (setup archC bindC6).1.ctx.events ≠ [] ∧
    (setup archC bindC6).1.ctx.bindings ≠ bindC6 := by
  refine ⟨by decide, by decide, by decide, by decide⟩

/-- C6 witness: the amended theorem applied to the cleanly routed concrete
design `(archC, bindOk)`. -/
theorem c6_setup_idempotent_amended_witness :
    FullyRouted archC bindOk ∧ SourcesBound archC bindOk ∧
    ((setup archC bindOk).1.arcQueue = [] ∧
     (setup archC bindOk).1.ctx.bindings = bindOk ∧
     (setup archC bindOk).1.ctx.events = []) :=
  ⟨by decide, by decide,
   c6_setup_idempotent_amended archC bindOk (by decide) (by decide)⟩

/-! ### C5: characterizing the post-route validator.

Helper lemmas on association-list lookups, on the switch graph, and on the
instrumented traversal `setOrderNumI`; the claim follows by specializing
them to the fresh traversal run by `checkNetRouted`. -/

/-- With duplicate-free keys, lookup succeeds exactly on the members. -/
theorem lookupKey_iff_mem (b : Bindings) (hk : keysNodup b) (w : WireId)
    (bi : BindInfo) : lookupKey b w = some bi ↔ (w, bi) ∈ b := by
  induction b with
  | nil => simp [lookupKey]
  | cons e t ih =>
    obtain ⟨k, v⟩ := e
    simp only [keysNodup, List.map_cons, List.nodup_cons] at hk
    by_cases he : k = w
    · subst he
      rw [lookupKey, List.find?_cons_of_pos _ (by simp)]
      simp only [Option.map_some', Option.some.injEq, List.mem_cons,
        Prod.mk.injEq]
      constructor
      · intro h
        exact Or.inl ⟨trivial, h.symm⟩
      · rintro (⟨-, rfl⟩ | hmem)
        · rfl
        · exact absurd (List.mem_map_of_mem (fun e => e.1) hmem) hk.1
    · rw [lookupKey, List.find?_cons_of_neg _ (by simp [he])]
      rw [show ((List.find? (fun e => e.1 == w) t).map (fun e => e.2)) =
        lookupKey t w from rfl]
      rw [ih hk.2]
      simp only [List.mem_cons, Prod.mk.injEq]
      constructor
      · exact Or.inr
      · rintro (⟨h1, -⟩ | hmem)
        · exact absurd h1.symm he
        · exact hmem

/-- A net's wires map inherits duplicate-free keys from the global map. -/
theorem keysNodup_netWires (b : Bindings) (hk : keysNodup b) (n : NetId) :
    keysNodup (netWires b n) := by
  refine List.Nodup.sublist ?_ hk
  simp only [netWires]
  exact List.Sublist.map (fun e => e.1) (List.filter_sublist b)

/-- Children are keys of the wires map. -/
theorem childrenOf_sub_keys (arch : Arch) (nw : Bindings) (u c : WireId)
    (hc : c ∈ childrenOf arch nw u) : c ∈ nw.map (fun e => e.1) := by
  simp only [childrenOf, List.mem_map, List.mem_filter] at hc ⊢
  obtain ⟨e, ⟨he, -⟩, rfl⟩ := hc
  exact ⟨e, he, rfl⟩

/-- With duplicate-free keys, each child list is duplicate-free. -/
theorem childrenOf_nodup (arch : Arch) (nw : Bindings) (hk : keysNodup nw)
    (u : WireId) : (childrenOf arch nw u).Nodup := by
  refine List.Nodup.sublist ?_ hk
  simp only [childrenOf]
  exact List.Sublist.map (fun e => e.1) (List.filter_sublist nw)

/-- With duplicate-free keys, the forward edges of the traversal are exactly
the backward parent edges: `c` is a child of `u` iff `u` is `c`'s parent. -/
theorem mem_childrenOf_iff (arch : Arch) (nw : Bindings) (hk : keysNodup nw)
    (u c : WireId) : c ∈ childrenOf arch nw u ↔ parOf arch nw c = some u := by
  constructor
  · intro hc
    simp only [childrenOf, List.mem_map, List.mem_filter] at hc
    obtain ⟨⟨k, bi⟩, ⟨hmem, hcond⟩, rfl⟩ := hc
    simp only [Bool.and_eq_true, bne_iff_ne, ne_eq, beq_iff_eq] at hcond
    have hl : lookupKey nw k = some bi := (lookupKey_iff_mem nw hk k bi).2 hmem
    simp [parOf, hl, hcond.1, hcond.2]
  · intro h
    cases hl : lookupKey nw c with
    | none => simp [parOf, hl] at h
    | some bi =>
      simp only [parOf, hl] at h
      by_cases hp : bi.pip ≠ nullPip
      · rw [if_pos hp] at h
        injection h with h
        simp only [childrenOf, List.mem_map, List.mem_filter]
        refine ⟨(c, bi), ⟨(lookupKey_iff_mem nw hk c bi).1 hl, ?_⟩, rfl⟩
        simp [bne_iff_ne, hp, h]
      · rw [if_neg hp] at h; simp at h

/-- With duplicate-free keys, `c` occurs in `childrenOf u` once when `u` is
its parent and not at all otherwise. -/
theorem childrenOf_count (arch : Arch) (nw : Bindings) (hk : keysNodup nw)
    (u c : WireId) :
    (childrenOf arch nw u).count c =
      if parOf arch nw c = some u then 1 else 0 := by
  by_cases h : parOf arch nw c = some u
  · rw [if_pos h]
    exact List.count_eq_one_of_mem (childrenOf_nodup arch nw hk u)
      ((mem_childrenOf_iff arch nw hk u c).2 h)
  · rw [if_neg h]
    exact List.count_eq_zero_of_not_mem
      (fun hm => h ((mem_childrenOf_iff arch nw hk u c).1 hm))

/-- Parent chains compose on the right. -/
theorem parIter_succ_right (arch : Arch) (nw : Bindings) (k : Nat)
    (v : WireId) :
    parIter arch nw (k + 1) v = (parIter arch nw k v).bind (parOf arch nw) := by
  induction k generalizing v with
  | zero =>
    cases h : parOf arch nw v with
    | none => simp [parIter, h]
    | some u => simp [parIter, h]
  | succ k ih =>
    have e1 : parIter arch nw (k + 1 + 1) v =
        (match parOf arch nw v with
          | some u => parIter arch nw (k + 1) u
          | none => none) := rfl
    have e2 : parIter arch nw (k + 1) v =
        (match parOf arch nw v with
          | some u => parIter arch nw k u
          | none => none) := rfl
    rw [e1, e2]
    cases h : parOf arch nw v with
    | none => rfl
    | some u => exact ih u

/-- Growing the visited set cannot increase the number of unvisited wires. -/
theorem countP_notMem_mono (U m m' : List WireId) (h : ∀ x ∈ m, x ∈ m') :
    U.countP (fun x => decide (x ∉ m')) ≤ U.countP (fun x => decide (x ∉ m)) := by
  refine List.countP_mono_left ?_
  intro a _ ha
  simp only [decide_eq_true_eq] at ha ⊢
  exact fun hm => ha (h a hm)

/-- Visiting a fresh wire of `U` strictly decreases the number of unvisited
wires of `U`. -/
theorem countP_notMem_lt (U m : List WireId) (w : WireId) (hw : w ∈ U)
    (hm : w ∉ m) :
    U.countP (fun x => decide (x ∉ w :: m)) <
      U.countP (fun x => decide (x ∉ m)) := by
  induction U with
  | nil => cases hw
  | cons a t ih =>
    rw [List.countP_cons, List.countP_cons]
    by_cases haw : a = w
    · subst haw
      have h1 : decide (a ∉ a :: m) = false := by simp
      have h2 : decide (a ∉ m) = true := by simp [hm]
      have hle := countP_notMem_mono t m (a :: m)
        (fun x hx => List.mem_cons_of_mem a hx)
      simp only [h1, h2]
      simp only [Bool.false_eq_true, if_false, if_true]
      omega
    · have h3 : decide (a ∉ w :: m) = decide (a ∉ m) := by
        simp [List.mem_cons, haw]
      have hw' : w ∈ t := by
        rcases List.mem_cons.1 hw with h | h
        · exact absurd h.symm haw
        · exact h
      have := ih hw'
      simp only [h3]
      omega

/-- The leaf check does not change the visited set. -/
theorem travLeafCheckI_marked (dests : List WireId) (w : WireId)
    (ch : List WireId) (st : TravI) :
    (travLeafCheckI dests w ch st).marked = st.marked := by
  unfold travLeafCheckI
  split
  · split <;> rfl
  · rfl

/-- The leaf check does not change the entry trace. -/
theorem travLeafCheckI_entries (dests : List WireId) (w : WireId)
    (ch : List WireId) (st : TravI) :
    (travLeafCheckI dests w ch st).entries = st.entries := by
  unfold travLeafCheckI
  split
  · split <;> rfl
  · rfl

/-- The leaf check does not change the loop flag. -/
theorem travLeafCheckI_loop (dests : List WireId) (w : WireId)
    (ch : List WireId) (st : TravI) :
    (travLeafCheckI dests w ch st).loop = st.loop := by
  unfold travLeafCheckI
  split
  · split <;> rfl
  · rfl

/-- The stub flag after the leaf check: already set, or `w` is a leaf that
is not a destination. -/
theorem travLeafCheckI_stub_iff (dests : List WireId) (w : WireId)
    (ch : List WireId) (st : TravI) :
    (travLeafCheckI dests w ch st).stub = true ↔
      st.stub = true ∨ (ch = [] ∧ w ∉ dests) := by
  unfold travLeafCheckI
  split
  · rename_i hch
    split
    · rename_i hd
      simp [hd]
    · rename_i hd
      simp [List.isEmpty_iff.1 hch, hd]
  · rename_i hch
    have hne : ch ≠ [] := fun h => hch (by simp [h])
    simp [hne]

/-- The instrumented leaf check projects onto the plain one. -/
theorem travLeafCheckI_toTrav (dests : List WireId) (w : WireId)
    (ch : List WireId) (st : TravI) :
    (travLeafCheckI dests w ch st).toTrav = travLeafCheck dests w ch st.toTrav := by
  unfold travLeafCheckI travLeafCheck
  split
  · split <;> rfl
  · rfl

/-- The instrumented traversal projects onto `setOrderNum`. -/
theorem setOrderNumI_toTrav (arch : Arch) (nw : Bindings)
    (dests : List WireId) :
    ∀ (f : Nat) (w : WireId) (st : TravI),
      (setOrderNumI arch nw dests f w st).toTrav =
        setOrderNum arch nw dests f w st.toTrav := by
  intro f
  induction f with
  | zero => intro w st; rfl
  | succ f ih =>
    intro w st
    have hfold : ∀ (cs : List WireId) (s : TravI),
        (cs.foldl (fun s c => setOrderNumI arch nw dests f c s) s).toTrav =
          cs.foldl (fun s c => setOrderNum arch nw dests f c s) s.toTrav := by
      intro cs
      induction cs with
      | nil => intro s; rfl
      | cons c t iht =>
        intro s
        rw [List.foldl_cons, List.foldl_cons, iht, ih]
    simp only [setOrderNumI, setOrderNum]
    by_cases hmem : w ∈ st.marked
    · rw [if_pos hmem, if_pos (show w ∈ st.toTrav.marked from hmem)]
      rfl
    · rw [if_neg hmem, if_neg (show w ∉ st.toTrav.marked from hmem)]
      rw [travLeafCheckI_toTrav, hfold]
      rfl

/-- The stub flag is never cleared by the traversal. -/
theorem setOrderNumI_stub_mono (arch : Arch) (nw : Bindings)
    (dests : List WireId) :
    ∀ (f : Nat) (w : WireId) (st : TravI), st.stub = true →
      (setOrderNumI arch nw dests f w st).stub = true := by
  intro f
  induction f with
  | zero => intro w st h; exact h
  | succ f ih =>
    intro w st h
    have hfold : ∀ (cs : List WireId) (s : TravI), s.stub = true →
        (cs.foldl (fun s c => setOrderNumI arch nw dests f c s) s).stub = true := by
      intro cs
      induction cs with
      | nil => intro s hs; exact hs
      | cons c t iht => intro s hs; exact iht _ (ih c s hs)
    simp only [setOrderNumI]
    by_cases hmem : w ∈ st.marked
    · rw [if_pos hmem]
      exact h
    · rw [if_neg hmem]
      exact (travLeafCheckI_stub_iff _ _ _ _).2
        (Or.inl (hfold (childrenOf arch nw w)
          ⟨w :: st.marked, st.loop, st.stub, st.entries ++ [w]⟩ h))

/-- Folding the traversal over a child list never clears the stub flag. -/
theorem foldTrav_stub_mono (arch : Arch) (nw : Bindings) (dests : List WireId)
    (f : Nat) :
    ∀ (cs : List WireId) (s : TravI), s.stub = true →
      (cs.foldl (fun s c => setOrderNumI arch nw dests f c s) s).stub = true := by
  intro cs
  induction cs with
  | nil => exact fun s h => h
  | cons c t iht =>
    exact fun s h => iht _ (setOrderNumI_stub_mono arch nw dests f c s h)

/-- Master lemma on the instrumented traversal.  Over a vertex universe `U`
closed under children, a call with enough fuel marks a set `Δ` of new wires
such that: the root is marked, the new marks lie in `U` and are closed under
children, each new mark has a parent chain to the root, the multiset of call
entries grows by one entry for the root plus one entry for each new mark
that is the parent of the counted wire, and the stub flag is set iff it was
set before or some new mark is a leaf that is not a destination. -/
theorem travMaster (arch : Arch) (nw : Bindings) (dests : List WireId)
    (U : List WireId) (hk : keysNodup nw)
    (hU : ∀ u, ∀ c ∈ childrenOf arch nw u, c ∈ U) :
    ∀ (f : Nat) (w : WireId) (st : TravI), w ∈ U → (∀ x ∈ st.marked, x ∈ U) →
      U.countP (fun x => decide (x ∉ st.marked)) < f →
      ∃ Δ : List WireId,
        (setOrderNumI arch nw dests f w st).marked = Δ ++ st.marked ∧
        w ∈ (setOrderNumI arch nw dests f w st).marked ∧
        (∀ x ∈ Δ, x ∈ U) ∧
        (∀ v ∈ Δ, ∀ c ∈ childrenOf arch nw v,
          c ∈ (setOrderNumI arch nw dests f w st).marked) ∧
        (∀ v, (setOrderNumI arch nw dests f w st).entries.count v =
          st.entries.count v + (if v = w then 1 else 0) +
            Δ.countP (fun u => parOf arch nw v == some u)) ∧
        (∀ v ∈ Δ, ∃ k, parIter arch nw k v = some w) ∧
        (∀ v ∈ Δ, childrenOf arch nw v = [] → v ∉ dests →
          (setOrderNumI arch nw dests f w st).stub = true) ∧
        ((setOrderNumI arch nw dests f w st).stub = true →
          st.stub = true ∨ ∃ v ∈ Δ, childrenOf arch nw v = [] ∧ v ∉ dests) := by
  intro f
  induction f with
  | zero => intro w st _ _ hf; exact absurd hf (Nat.not_lt_zero _)
  | succ f ih =>
    intro w st hw hm hf
    have hfold : ∀ (cs : List WireId) (st : TravI), (∀ c ∈ cs, c ∈ U) →
        (∀ x ∈ st.marked, x ∈ U) →
        U.countP (fun x => decide (x ∉ st.marked)) < f →
        ∃ Δf : List WireId,
          (cs.foldl (fun s c => setOrderNumI arch nw dests f c s) st).marked =
            Δf ++ st.marked ∧
          (∀ c ∈ cs,
            c ∈ (cs.foldl (fun s c => setOrderNumI arch nw dests f c s) st).marked) ∧
          (∀ x ∈ Δf, x ∈ U) ∧
          (∀ v ∈ Δf, ∀ c ∈ childrenOf arch nw v,
            c ∈ (cs.foldl (fun s c => setOrderNumI arch nw dests f c s) st).marked) ∧
          (∀ v, (cs.foldl (fun s c => setOrderNumI arch nw dests f c s) st).entries.count v =
            st.entries.count v + cs.count v +
              Δf.countP (fun u => parOf arch nw v == some u)) ∧
          (∀ v ∈ Δf, ∃ k, ∃ c ∈ cs, parIter arch nw k v = some c) ∧
          (∀ v ∈ Δf, childrenOf arch nw v = [] → v ∉ dests →
            (cs.foldl (fun s c => setOrderNumI arch nw dests f c s) st).stub = true) ∧
          ((cs.foldl (fun s c => setOrderNumI arch nw dests f c s) st).stub = true →
            st.stub = true ∨ ∃ v ∈ Δf, childrenOf arch nw v = [] ∧ v ∉ dests) := by
      intro cs
      induction cs with
      | nil =>
        intro st _ _ _
        refine ⟨[], (List.nil_append _).symm, ?_, ?_, ?_, ?_, ?_, ?_, ?_⟩
        · intro c hc; cases hc
        · intro x hx; cases hx
        · intro v hv; cases hv
        · intro v; simp
        · intro v hv; cases hv
        · intro v hv; cases hv
        · exact fun h => Or.inl h
      | cons c cs ihc =>
        intro st hcs hmU hmf
        obtain ⟨Δ1, ha1, hb1, hc1, hd1, he1, hp1, hg1, hh1⟩ :=
          ih c st (hcs c (List.mem_cons_self c cs)) hmU hmf
        have hm1 : ∀ x ∈ (setOrderNumI arch nw dests f c st).marked, x ∈ U := by
          intro x hx
          rw [ha1] at hx
          rcases List.mem_append.1 hx with h | h
          · exact hc1 x h
          · exact hmU x h
        have hmf1 :
            U.countP (fun x => decide (x ∉ (setOrderNumI arch nw dests f c st).marked)) < f := by
          refine Nat.lt_of_le_of_lt (countP_notMem_mono U st.marked _ ?_) hmf
          intro x hx
          rw [ha1]
          exact List.mem_append_right _ hx
        obtain ⟨Δ2, ha2, hb2, hc2, hd2, he2, hp2, hg2, hh2⟩ :=
          ihc (setOrderNumI arch nw dests f c st)
            (fun x hx => hcs x (List.mem_cons_of_mem c hx)) hm1 hmf1
        simp only [List.foldl_cons]
        refine ⟨Δ2 ++ Δ1, ?_, ?_, ?_, ?_, ?_, ?_, ?_, ?_⟩
        · rw [ha2, ha1, List.append_assoc]
        · intro x hx
          rcases List.mem_cons.1 hx with rfl | hx'
          · rw [ha2]; exact List.mem_append_right _ hb1
          · exact hb2 x hx'
        · intro x hx
          rcases List.mem_append.1 hx with h | h
          · exact hc2 x h
          · exact hc1 x h
        · intro v hv
          rcases List.mem_append.1 hv with h | h
          · exact hd2 v h
          · intro c' hc'
            rw [ha2]
            exact List.mem_append_right _ (hd1 v h c' hc')
        · intro v
          rw [he2 v, he1 v, List.countP_append, List.count_cons]
          have hif : (if (c == v) = true then 1 else 0) =
              (if v = c then 1 else 0) := by
            by_cases h : v = c
            · simp [h]
            · simp [h, Ne.symm h]
          omega
        · intro v hv
          rcases List.mem_append.1 hv with h | h
          · obtain ⟨k, c', hcc, hch⟩ := hp2 v h
            exact ⟨k, c', List.mem_cons_of_mem c hcc, hch⟩
          · obtain ⟨k, hch⟩ := hp1 v h
            exact ⟨k, c, List.mem_cons_self c cs, hch⟩
        · intro v hv hch hnd
          rcases List.mem_append.1 hv with h | h
          · exact hg2 v h hch hnd
          · exact foldTrav_stub_mono arch nw dests f cs _ (hg1 v h hch hnd)
        · intro hstub
          rcases hh2 hstub with h | ⟨v, hv, hch, hnd⟩
          · rcases hh1 h with h' | ⟨v, hv, hch, hnd⟩
            · exact Or.inl h'
            · exact Or.inr ⟨v, List.mem_append_right _ hv, hch, hnd⟩
          · exact Or.inr ⟨v, List.mem_append_left _ hv, hch, hnd⟩
    simp only [setOrderNumI]
    by_cases hmem : w ∈ st.marked
    · rw [if_pos hmem]
      refine ⟨[], (List.nil_append _).symm, hmem, ?_, ?_, ?_, ?_, ?_, ?_⟩
      · intro x hx; cases hx
      · intro v hv; cases hv
      · intro v
        by_cases hvw : v = w
        · subst hvw; simp [List.count_append, List.count_singleton']
        · simp [List.count_append, List.count_singleton', hvw, Ne.symm hvw]
      · intro v hv; cases hv
      · intro v hv; cases hv
      · exact fun h => Or.inl h
    · rw [if_neg hmem]
      obtain ⟨Δf, ha, hb, hc, hd, he, hp, hg, hh⟩ :=
        hfold (childrenOf arch nw w)
          ⟨w :: st.marked, st.loop, st.stub, st.entries ++ [w]⟩
          (hU w)
          (by
            intro x hx
            rcases List.mem_cons.1 hx with rfl | h
            · exact hw
            · exact hm x h)
          (by
            have hlt := countP_notMem_lt U st.marked w hw hmem
            show U.countP (fun x => decide (x ∉ w :: st.marked)) < f
            omega)
      refine ⟨Δf ++ [w], ?_, ?_, ?_, ?_, ?_, ?_, ?_, ?_⟩
      · rw [travLeafCheckI_marked, ha]
        simp [List.append_assoc]
      · rw [travLeafCheckI_marked, ha]
        simp
      · intro x hx
        rcases List.mem_append.1 hx with h | h
        · exact hc x h
        · have : x = w := by simpa using h
          subst this
          exact hw
      · intro v hv c' hc'
        rw [travLeafCheckI_marked]
        rcases List.mem_append.1 hv with h | h
        · exact hd v h c' hc'
        · have : v = w := by simpa using h
          subst this
          exact hb c' hc'
      · intro v
        rw [travLeafCheckI_entries, he v, List.countP_append]
        have h1 : (⟨w :: st.marked, st.loop, st.stub,
            st.entries ++ [w]⟩ : TravI).entries.count v =
            st.entries.count v + (if v = w then 1 else 0) := by
          by_cases hvw : v = w
          · subst hvw; simp [List.count_append, List.count_singleton']
          · simp [List.count_append, List.count_singleton', hvw, Ne.symm hvw]
        have hcc : (childrenOf arch nw w).count v =
            List.countP (fun u => parOf arch nw v == some u) [w] := by
          rw [childrenOf_count arch nw hk w v]
          simp only [List.countP_cons, List.countP_nil]
          by_cases h : parOf arch nw v = some w
          · simp [h]
          · simp [h]
        omega
      · intro v hv
        rcases List.mem_append.1 hv with h | h
        · obtain ⟨k, c', hc', hch⟩ := hp v h
          refine ⟨k + 1, ?_⟩
          rw [parIter_succ_right, hch]
          simpa using (mem_childrenOf_iff arch nw hk w c').1 hc'
        · have : v = w := by simpa using h
          subst this
          exact ⟨0, rfl⟩
      · intro v hv hch hnd
        rcases List.mem_append.1 hv with h | h
        · exact (travLeafCheckI_stub_iff _ _ _ _).2 (Or.inl (hg v h hch hnd))
        · have : v = w := by simpa using h
          subst this
          exact (travLeafCheckI_stub_iff _ _ _ _).2 (Or.inr ⟨hch, hnd⟩)
      · intro hstub
        rcases (travLeafCheckI_stub_iff _ _ _ _).1 hstub with h | ⟨hch, hnd⟩
        · rcases hh h with h' | ⟨v, hv, hch, hnd⟩
          · exact Or.inl h'
          · exact Or.inr ⟨v, List.mem_append_left _ hv, hch, hnd⟩
        · exact Or.inr ⟨w, List.mem_append_right _ (by simp), hch, hnd⟩

/-- The traversal keeps the visited set and the entry trace in sync: they
hold the same wires, and the loop flag is set exactly when the trace has a
repetition (the C++ increments `order_num` on every entry and flags a loop
on re-entry into an already numbered wire). -/
theorem travSync (arch : Arch) (nw : Bindings) (dests : List WireId) :
    ∀ (f : Nat) (w : WireId) (st : TravI),
      (∀ x, x ∈ st.marked ↔ x ∈ st.entries) →
      (st.loop = true ↔ ¬ st.entries.Nodup) →
      ((∀ x, x ∈ (setOrderNumI arch nw dests f w st).marked ↔
          x ∈ (setOrderNumI arch nw dests f w st).entries) ∧
        ((setOrderNumI arch nw dests f w st).loop = true ↔
          ¬ (setOrderNumI arch nw dests f w st).entries.Nodup)) := by
  intro f
  induction f with
  | zero => exact fun w st h1 h2 => ⟨h1, h2⟩
  | succ f ih =>
    intro w st h1 h2
    have hfold : ∀ (cs : List WireId) (s : TravI),
        (∀ x, x ∈ s.marked ↔ x ∈ s.entries) →
        (s.loop = true ↔ ¬ s.entries.Nodup) →
        ((∀ x, x ∈ (cs.foldl (fun s c => setOrderNumI arch nw dests f c s) s).marked ↔
            x ∈ (cs.foldl (fun s c => setOrderNumI arch nw dests f c s) s).entries) ∧
          ((cs.foldl (fun s c => setOrderNumI arch nw dests f c s) s).loop = true ↔
            ¬ (cs.foldl (fun s c => setOrderNumI arch nw dests f c s) s).entries.Nodup)) := by
      intro cs
      induction cs with
      | nil => exact fun s hs1 hs2 => ⟨hs1, hs2⟩
      | cons c t iht =>
        intro s hs1 hs2
        obtain ⟨k1, k2⟩ := ih c s hs1 hs2
        exact iht _ k1 k2
    simp only [setOrderNumI]
    by_cases hmem : w ∈ st.marked
    · rw [if_pos hmem]
      constructor
      · intro x
        constructor
        · intro hx
          exact List.mem_append_left _ ((h1 x).1 hx)
        · intro hx
          rcases List.mem_append.1 hx with h | h
          · exact (h1 x).2 h
          · have hxw : x = w := by simpa using h
            subst hxw
            exact hmem
      · constructor
        · intro _ hnd
          rw [List.nodup_append] at hnd
          exact hnd.2.2 ((h1 w).1 hmem) (by simp)
        · intro _
          rfl
    · rw [if_neg hmem]
      have hwE : w ∉ st.entries := fun h => hmem ((h1 w).2 h)
      have k1 : ∀ x,
          x ∈ (⟨w :: st.marked, st.loop, st.stub, st.entries ++ [w]⟩ : TravI).marked ↔
            x ∈ (⟨w :: st.marked, st.loop, st.stub, st.entries ++ [w]⟩ : TravI).entries := by
        intro x
        show x ∈ w :: st.marked ↔ x ∈ st.entries ++ [w]
        constructor
        · intro hx
          rcases List.mem_cons.1 hx with rfl | h
          · exact List.mem_append_right _ (by simp)
          · exact List.mem_append_left _ ((h1 x).1 h)
        · intro hx
          rcases List.mem_append.1 hx with h | h
          · exact List.mem_cons_of_mem _ ((h1 x).2 h)
          · have hxw : x = w := by simpa using h
            subst hxw
            exact List.mem_cons_self _ _
      have k2 : (⟨w :: st.marked, st.loop, st.stub, st.entries ++ [w]⟩ : TravI).loop = true ↔
          ¬ (⟨w :: st.marked, st.loop, st.stub, st.entries ++ [w]⟩ : TravI).entries.Nodup := by
        show st.loop = true ↔ ¬ (st.entries ++ [w]).Nodup
        rw [List.nodup_append]
        constructor
        · intro h hcon
          exact (h2.1 h) hcon.1
        · intro h
          refine h2.2 ?_
          intro hnd
          apply h
          refine ⟨hnd, List.nodup_singleton w, ?_⟩
          intro a ha hb
          have haw : a = w := by simpa using hb
          subst haw
          exact hwE ha
      obtain ⟨m1, m2⟩ := hfold (childrenOf arch nw w)
        ⟨w :: st.marked, st.loop, st.stub, st.entries ++ [w]⟩ k1 k2
      constructor
      · intro x
        rw [travLeafCheckI_marked, travLeafCheckI_entries]
        exact m1 x
      · rw [travLeafCheckI_loop, travLeafCheckI_entries]
        exact m2

/-- The visited list of the traversal stays duplicate-free. -/
theorem travMarkedNodup (arch : Arch) (nw : Bindings) (dests : List WireId) :
    ∀ (f : Nat) (w : WireId) (st : TravI), st.marked.Nodup →
      (setOrderNumI arch nw dests f w st).marked.Nodup := by
  intro f
  induction f with
  | zero => exact fun w st h => h
  | succ f ih =>
    intro w st h
    have hfold : ∀ (cs : List WireId) (s : TravI), s.marked.Nodup →
        (cs.foldl (fun s c => setOrderNumI arch nw dests f c s) s).marked.Nodup := by
      intro cs
      induction cs with
      | nil => exact fun s hs => hs
      | cons c t iht => exact fun s hs => iht _ (ih c s hs)
    simp only [setOrderNumI]
    by_cases hmem : w ∈ st.marked
    · rw [if_pos hmem]
      exact h
    · rw [if_neg hmem]
      rw [travLeafCheckI_marked]
      exact hfold (childrenOf arch nw w)
        ⟨w :: st.marked, st.loop, st.stub, st.entries ++ [w]⟩
        (List.nodup_cons.2 ⟨hmem, h⟩)

/-- A duplicate-free list whose elements all equal `u0` has length ≤ 1. -/
theorem length_le_one_of_all_eq (l : List WireId) (hnd : l.Nodup)
    (u0 : WireId) (hall : ∀ x ∈ l, x = u0) : l.length ≤ 1 := by
  cases l with
  | nil => simp
  | cons a t =>
    cases t with
    | nil => simp
    | cons b t2 =>
      exfalso
      have ha := hall a (by simp)
      have hb := hall b (by simp)
      subst ha
      rw [List.nodup_cons] at hnd
      exact hnd.1 (by simp [hb])

/-- Each wire has at most one parent, so a duplicate-free list contains at
most one parent of any given wire. -/
theorem countP_parOf_le_one (arch : Arch) (nw : Bindings) (Δ : List WireId)
    (hnd : Δ.Nodup) (v : WireId) :
    Δ.countP (fun u => parOf arch nw v == some u) ≤ 1 := by
  cases hpv : parOf arch nw v with
  | none =>
    have hz : Δ.countP (fun u => (none : Option WireId) == some u) = 0 := by
      rw [List.countP_eq_zero]
      intro a _
      simp
    omega
  | some u0 =>
    rw [List.countP_eq_length_filter]
    refine length_le_one_of_all_eq _ (hnd.filter _) u0 ?_
    intro x hx
    have hxp := (List.mem_filter.1 hx).2
    simp only [hpv, beq_iff_eq, Option.some.injEq] at hxp
    exact hxp.symm

/-- The validator's traversal, characterized: it marks exactly the wires
reachable from the source along parent chains, flags a loop exactly when
the source lies on a pip cycle, and flags a stub exactly when some reached
leaf is not a destination. -/
theorem checkNetTrav_spec (arch : Arch) (nw : Bindings) (dests : List WireId)
    (srcW : WireId) (hk : keysNodup nw) :
    (∀ v, v ∈ (checkNetTrav arch nw dests srcW).marked ↔ ReachW arch nw srcW v) ∧
    ((checkNetTrav arch nw dests srcW).loop = true ↔ SrcOnCycle arch nw srcW) ∧
    ((checkNetTrav arch nw dests srcW).stub = true ↔
      ∃ v, ReachW arch nw srcW v ∧ childrenOf arch nw v = [] ∧ v ∉ dests) := by
  have hU : ∀ u, ∀ c ∈ childrenOf arch nw u, c ∈ srcW :: nw.map (fun e => e.1) :=
    fun u c hc => List.mem_cons_of_mem _ (childrenOf_sub_keys arch nw u c hc)
  have hfuel : (srcW :: nw.map (fun e => e.1)).countP
      (fun x => decide (x ∉ ([] : List WireId))) < nw.length + 2 := by
    have h1 : (srcW :: nw.map (fun e => e.1)).countP
        (fun x => decide (x ∉ ([] : List WireId))) ≤
          (srcW :: nw.map (fun e => e.1)).length :=
      List.countP_le_length _
    have h2 : (srcW :: nw.map (fun e => e.1)).length = nw.length + 1 := by simp
    omega
  obtain ⟨Δ, ha, hb, hc, hd, he, hp, hg, hh⟩ :=
    travMaster arch nw dests (srcW :: nw.map (fun e => e.1)) hk hU
      (nw.length + 2) srcW ⟨[], false, false, []⟩
      (List.mem_cons_self _ _) (fun x hx => absurd hx (List.not_mem_nil x)) hfuel
  have hΔ : (setOrderNumI arch nw dests (nw.length + 2) srcW
      ⟨[], false, false, []⟩).marked = Δ := by
    rw [ha]
    simp
  have hcomplete : ∀ (k : Nat) (v : WireId), parIter arch nw k v = some srcW →
      v ∈ (setOrderNumI arch nw dests (nw.length + 2) srcW
        ⟨[], false, false, []⟩).marked := by
    intro k
    induction k with
    | zero =>
      intro v hch
      have hv : v = srcW := by simpa [parIter] using hch
      subst hv
      exact hb
    | succ k ihk =>
      intro v hch
      have e2 : parIter arch nw (k + 1) v =
          (match parOf arch nw v with
            | some u => parIter arch nw k u
            | none => none) := rfl
      rw [e2] at hch
      cases hpv : parOf arch nw v with
      | none => rw [hpv] at hch; simp at hch
      | some u =>
        rw [hpv] at hch
        have hu := ihk u hch
        rw [hΔ] at hu
        exact hd u hu v ((mem_childrenOf_iff arch nw hk u v).2 hpv)
  have hmemReach : ∀ v,
      v ∈ (setOrderNumI arch nw dests (nw.length + 2) srcW
        ⟨[], false, false, []⟩).marked ↔ ReachW arch nw srcW v := by
    intro v
    constructor
    · intro hv
      rw [hΔ] at hv
      exact hp v hv
    · rintro ⟨k, hch⟩
      exact hcomplete k v hch
  obtain ⟨-, hloopN⟩ := travSync arch nw dests (nw.length + 2) srcW
    ⟨[], false, false, []⟩ (fun x => Iff.rfl) (by simp)
  have hndΔ : Δ.Nodup := by
    rw [← hΔ]
    exact travMarkedNodup arch nw dests (nw.length + 2) srcW
      ⟨[], false, false, []⟩ (by simp)
  have hcount : ∀ v,
      (setOrderNumI arch nw dests (nw.length + 2) srcW
        ⟨[], false, false, []⟩).entries.count v =
        (if v = srcW then 1 else 0) +
          Δ.countP (fun u => parOf arch nw v == some u) := by
    intro v
    rw [he v]
    simp
  have hloopIff : (setOrderNumI arch nw dests (nw.length + 2) srcW
      ⟨[], false, false, []⟩).loop = true ↔ SrcOnCycle arch nw srcW := by
    rw [hloopN]
    constructor
    · intro hnd
      rw [List.nodup_iff_count_le_one] at hnd
      push_neg at hnd
      obtain ⟨v, hv⟩ := hnd
      have hle1 := countP_parOf_le_one arch nw Δ hndΔ v
      by_cases hvs : v = srcW
      · have hcv : (setOrderNumI arch nw dests (nw.length + 2) srcW
            ⟨[], false, false, []⟩).entries.count v =
            1 + Δ.countP (fun u => parOf arch nw v == some u) := by
          rw [hcount v]
          simp [hvs]
        have hpos : 0 < Δ.countP (fun u => parOf arch nw v == some u) := by omega
        obtain ⟨u, hu, hbeq⟩ := List.countP_pos_iff.1 hpos
        have hpu : parOf arch nw v = some u := by simpa using hbeq
        exact ⟨u, hvs ▸ hpu, (hmemReach u).1 (by rw [hΔ]; exact hu)⟩
      · exfalso
        have hcv : (setOrderNumI arch nw dests (nw.length + 2) srcW
            ⟨[], false, false, []⟩).entries.count v =
            Δ.countP (fun u => parOf arch nw v == some u) := by
          rw [hcount v]
          simp [hvs]
        omega
    · rintro ⟨u, hpu, hreach⟩
      have huΔ : u ∈ Δ := by
        rw [← hΔ]
        exact (hmemReach u).2 hreach
      have hpos : 0 < Δ.countP (fun u' => parOf arch nw srcW == some u') :=
        List.countP_pos_iff.2 ⟨u, huΔ, by simp [hpu]⟩
      have hcv : (setOrderNumI arch nw dests (nw.length + 2) srcW
          ⟨[], false, false, []⟩).entries.count srcW =
          1 + Δ.countP (fun u' => parOf arch nw srcW == some u') := by
        rw [hcount srcW]
        simp
      rw [List.nodup_iff_count_le_one]
      push_neg
      exact ⟨srcW, by omega⟩
  have hstubIff : (setOrderNumI arch nw dests (nw.length + 2) srcW
      ⟨[], false, false, []⟩).stub = true ↔
      ∃ v, ReachW arch nw srcW v ∧ childrenOf arch nw v = [] ∧ v ∉ dests := by
    constructor
    · intro h
      rcases hh h with h' | ⟨v, hv, hch, hnd2⟩
      · simp at h'
      · exact ⟨v, (hmemReach v).1 (by rw [hΔ]; exact hv), hch, hnd2⟩
    · rintro ⟨v, hreach, hch, hnd2⟩
      refine hg v ?_ hch hnd2
      rw [← hΔ]
      exact (hmemReach v).2 hreach
  have hproj : checkNetTrav arch nw dests srcW =
      (setOrderNumI arch nw dests (nw.length + 2) srcW ⟨[], false, false, []⟩).toTrav := by
    rw [setOrderNumI_toTrav]
    rfl
  refine ⟨?_, ?_, ?_⟩
  · intro v
    rw [hproj]
    exact hmemReach v
  · rw [hproj]
    exact hloopIff
  · rw [hproj]
    exact hstubIff

/-- Per-net validation, characterized: for a net with users, `checkNetRouted`
is true exactly under the amended conditions of claim C5. -/
theorem checkNetRouted_iff (arch : Arch) (b : Bindings) (n : NetId)
    (hk : keysNodup b) (hn : arch.usersCount n ≠ 0) :
    checkNetRouted arch b n = true ↔ C5NetCondsAmended arch b n := by
  have hknw := keysNodup_netWires b hk n
  obtain ⟨hmem, hloop, hstub⟩ := checkNetTrav_spec arch (netWires b n)
    (checkNetDests arch n) (arch.sourceWire n) hknw
  have hA : checkNetUnrouted (netWires b n) (arch.sourceWire n)
      (checkNetDests arch n) = false ↔
      (containsKey (netWires b n) (arch.sourceWire n) = true ∧
        ∀ i < arch.usersCount n,
          containsKey (netWires b n) (arch.sinkWire n i) = true) := by
    simp only [checkNetUnrouted, Bool.or_eq_false_iff, Bool.not_eq_false',
      List.any_eq_false, checkNetDests, List.mem_map, List.mem_range]
    constructor
    · rintro ⟨h1, h2⟩
      refine ⟨h1, ?_⟩
      intro i hi
      have := h2 (arch.sinkWire n i) ⟨i, hi, rfl⟩
      simpa using this
    · rintro ⟨h1, h2⟩
      refine ⟨h1, ?_⟩
      rintro d ⟨i, hi, rfl⟩
      simp [h2 i hi]
  have hL : (checkNetTrav arch (netWires b n) (checkNetDests arch n)
      (arch.sourceWire n)).loop = false ↔
      ¬ SrcOnCycle arch (netWires b n) (arch.sourceWire n) := by
    constructor
    · intro h hc
      have := hloop.2 hc
      rw [h] at this
      simp at this
    · intro h
      cases hb2 : (checkNetTrav arch (netWires b n) (checkNetDests arch n)
          (arch.sourceWire n)).loop with
      | false => rfl
      | true => exact absurd (hloop.1 hb2) h
  have hS : (checkNetTrav arch (netWires b n) (checkNetDests arch n)
      (arch.sourceWire n)).stub = false ↔
      (∀ v, ReachW arch (netWires b n) (arch.sourceWire n) v →
        childrenOf arch (netWires b n) v = [] →
        ∃ i < arch.usersCount n, arch.sinkWire n i = v) := by
    constructor
    · intro h v hreach hch
      by_contra hno
      have hvd : v ∉ checkNetDests arch n := by
        intro hv
        apply hno
        simpa [checkNetDests] using hv
      have := hstub.2 ⟨v, hreach, hch, hvd⟩
      rw [h] at this
      simp at this
    · intro hall
      by_contra hs
      have hs2 : (checkNetTrav arch (netWires b n) (checkNetDests arch n)
          (arch.sourceWire n)).stub = true := by
        cases hb2 : (checkNetTrav arch (netWires b n) (checkNetDests arch n)
            (arch.sourceWire n)).stub with
        | false => exact absurd hb2 hs
        | true => rfl
      obtain ⟨v, hreach, hch, hvd⟩ := hstub.1 hs2
      apply hvd
      obtain ⟨i, hi, hsv⟩ := hall v hreach hch
      simp only [checkNetDests, List.mem_map, List.mem_range]
      exact ⟨i, hi, hsv⟩
  have hD : (checkNetDangling arch (netWires b n)
      (checkNetTrav arch (netWires b n) (checkNetDests arch n)
        (arch.sourceWire n))).isEmpty = true ↔
      ∀ u ∈ parentsList arch (netWires b n),
        ReachW arch (netWires b n) (arch.sourceWire n) u := by
    rw [List.isEmpty_iff]
    simp only [checkNetDangling, List.filter_eq_nil_iff, Bool.not_eq_true',
      Bool.not_eq_false]
    constructor
    · intro h u hu
      have := h u hu
      rw [← hmem u]
      simpa using this
    · intro h u hu
      have := (hmem u).2 (h u hu)
      simpa using this
  simp only [checkNetRouted]
  rw [if_neg hn]
  rw [Bool.not_eq_true']
  rw [Bool.or_eq_false_iff, Bool.or_eq_false_iff, Bool.or_eq_false_iff,
    Bool.not_eq_false']
  rw [hA, hL, hS, hD]
  simp only [C5NetCondsAmended, C5CoreConds]
  tauto

/-- C5 (amended claim): with duplicate-free binding keys — an
`unordered_map` cannot hold a key twice — `checkRoutedDesign` returns true
iff every net with at least one user satisfies: the source wire and every
sink wire are bound to the net, the traversal from the source meets no
cycle, every reached leaf is a sink wire, and every wire that appears as
the SOURCE of some bound pip of the net (the keys of the validator's `db`)
is reached from the source.  The original claim instead demanded that every
wire bound to the net be reached; the validator does not check that (see
the counterexample).  Nets with no users are accepted without checks (the
C++ also asserts they hold no wires; asserts are modelled as no-ops). -/
theorem c5_check_routed_amended (arch : Arch) (b : Bindings)
    (hk : keysNodup b) :
    checkRoutedDesign arch b = true ↔
      ∀ n ∈ arch.nets, 1 ≤ arch.usersCount n → C5NetCondsAmended arch b n := by
  simp only [checkRoutedDesign, List.all_eq_true]
  constructor
  · intro h n hn hu
    have hcn := h n hn
    rw [checkNetRouted_iff arch b n hk (by omega)] at hcn
    exact hcn
  · intro h n hn
    by_cases hz : arch.usersCount n = 0
    · simp [checkNetRouted, hz]
    · rw [checkNetRouted_iff arch b n hk hz]
      exact h n hn (by omega)

/-- C5 (counterexample to the claim as stated): in `(archC, bindC5)` wire 3
is bound to net 0 by `bindWire` (no driving pip), so it is not reached from
the source, violating the claim's "every wire bound to the net is reached
from the source"; yet `checkRoutedDesign` returns true, because the
validator's dangling check only inspects wires that occur as the source of
some bound pip. -/
theorem c5_check_routed_counterexample :
    checkRoutedDesign archC bindC5 = true ∧
    ¬ (∀ n ∈ archC.nets, 1 ≤ archC.usersCount n → C5NetConds archC bindC5 n) := by
  constructor
  · decide
  · intro hall
    obtain ⟨-, hdang⟩ := hall 0 (by decide) (by decide)
    have h3 := hdang (3, ⟨0, 0, 1⟩) (by decide)
    obtain ⟨k, hk⟩ := h3
    cases k with
    | zero => exact absurd hk (by decide)
    | succ k =>
      have hnone : parOf archC (netWires bindC5 0) 3 = none := by decide
      have e2 : parIter archC (netWires bindC5 0) (k + 1) 3 =
          (match parOf archC (netWires bindC5 0) 3 with
            | some u => parIter archC (netWires bindC5 0) k u
            | none => none) := rfl
      rw [e2, hnone] at hk
      simp at hk

/-- C5 witness: the amended theorem applied to the concrete routed design
`(archC, bindOk)`, whose binding keys are duplicate-free. -/
theorem c5_check_routed_amended_witness :
    keysNodup bindOk ∧
    (checkRoutedDesign archC bindOk = true ↔
      ∀ n ∈ archC.nets, 1 ≤ archC.usersCount n → C5NetCondsAmended archC bindOk n) :=
  ⟨by decide, c5_check_routed_amended archC bindOk (by decide)⟩

end Router1Model
